import Mathlib

/-!
Verification of the AgentBridge tool-calling runtime.

The definitions below are a shallow embedding of the TypeScript source:
JavaScript objects become association lists, JSON values become the `Json`
type, exceptions become `Except`, and the injected LLM/HTTP backends become
function parameters (they are external SDK calls in the source).

Source files embedded:
- packages/core/src/plugin-registry.ts  (PluginRegistry)
- packages/core/src/engine.ts           (AgentBridgeEngine.chat)
- packages/core/src/action-executor.ts  (ActionExecutor)
- packages/core/src/conversation.ts     (ConversationManager)
- packages/openapi/src/manifest-to-plugin.ts (createAction request building)
- packages/llm/src/openai.ts            (OpenAIProvider.chat retry ladder)
-/

set_option maxRecDepth 4000

/-! ## JSON values

JavaScript runtime values (`any` in the source).  `undefined` is represented
by `Option.none` at the use sites.  Encoded as a mutual inductive so that
structural recursion and induction work smoothly. -/

mutual
inductive Json where
  | null
  | bool (b : Bool)
  | num (n : Int)
  | str (s : String)
  | arr (elems : JsonItems)
  | obj (fields : JsonFields)
  deriving DecidableEq

inductive JsonItems where
  | nil
  | cons (hd : Json) (tl : JsonItems)
  deriving DecidableEq

inductive JsonFields where
  | nil
  | cons (key : String) (val : Json) (tl : JsonFields)
  deriving DecidableEq
end

/-- Lookup of a property on a JavaScript object (`o[k]`); `none` models
`undefined`. -/
def jfLookup : JsonFields → String → Option Json
  | .nil, _ => none
  | .cons k v rest, key => if k = key then some v else jfLookup rest key

/-- Does the object have the property? -/
def jfHas : JsonFields → String → Bool
  | .nil, _ => false
  | .cons k _ rest, key => k = key || jfHas rest key

/-- Property assignment `o[k] = v`: updates the existing entry in place, or
appends a new entry (JavaScript object key order). -/
def jfSet : JsonFields → String → Json → JsonFields
  | .nil, key, v => .cons key v .nil
  | .cons k w rest, key, v =>
    if k = key then .cons k v rest else .cons k w (jfSet rest key v)

/-- Number of entries of the object carrying the given key. -/
def jfCount : JsonFields → String → Nat
  | .nil, _ => 0
  | .cons k _ rest, key => (if k = key then 1 else 0) + jfCount rest key

/-- Is the object empty (`Object.keys(o).length > 0` test in the source)? -/
def jfIsEmpty : JsonFields → Bool
  | .nil => true
  | .cons _ _ _ => false

/-! ## Schema compaction  (plugin-registry.ts, `compactJsonSchema`)

The source strips the keys below from every object node, recursing through
arrays and objects; primitives are returned unchanged. -/

/-- Keys removed by `compactJsonSchema` ("Keep only fields required for
tool-calling argument validation"). -/
def strippedKeys : List String :=
  ["description", "default", "examples", "title", "$id", "$comment"]

mutual
/-- Embedding of `PluginRegistry.compactJsonSchema`. -/
def compactJsonSchema : Json → Json
  | .arr l => .arr (compactJsonItems l)
  | .obj l => .obj (compactJsonFields l)
  | v => v

def compactJsonItems : JsonItems → JsonItems
  | .nil => .nil
  | .cons v rest => .cons (compactJsonSchema v) (compactJsonItems rest)

def compactJsonFields : JsonFields → JsonFields
  | .nil => .nil
  | .cons k v rest =>
    if k ∈ strippedKeys then compactJsonFields rest
    else .cons k (compactJsonSchema v) (compactJsonFields rest)
end

mutual
/-- A JSON value containing no object node (e.g. the string value of `type`
or the string-array value of `required`/`enum`). -/
def jsonPure : Json → Bool
  | .arr l => jsonItemsPure l
  | .obj _ => false
  | _ => true

def jsonItemsPure : JsonItems → Bool
  | .nil => true
  | .cons v rest => jsonPure v && jsonItemsPure rest
end

mutual
theorem compactJsonSchema_idem :
    (j : Json) → compactJsonSchema (compactJsonSchema j) = compactJsonSchema j
  | .null => rfl
  | .bool _ => rfl
  | .num _ => rfl
  | .str _ => rfl
  | .arr l => by rw [compactJsonSchema, compactJsonSchema, compactJsonItems_idem l]
  | .obj l => by rw [compactJsonSchema, compactJsonSchema, compactJsonFields_idem l]

theorem compactJsonItems_idem :
    (l : JsonItems) → compactJsonItems (compactJsonItems l) = compactJsonItems l
  | .nil => rfl
  | .cons v rest => by
    rw [compactJsonItems, compactJsonItems, compactJsonSchema_idem v,
      compactJsonItems_idem rest]

theorem compactJsonFields_idem :
    (l : JsonFields) → compactJsonFields (compactJsonFields l) = compactJsonFields l
  | .nil => rfl
  | .cons k v rest => by
    by_cases h : k ∈ strippedKeys
    · rw [compactJsonFields, if_pos h, compactJsonFields_idem rest]
    · rw [compactJsonFields, if_neg h, compactJsonFields, if_neg h,
        compactJsonSchema_idem v, compactJsonFields_idem rest]
end

theorem jfLookup_compact : (fields : JsonFields) → ∀ {k : String} {v : Json},
    k ∉ strippedKeys → jfLookup fields k = some v →
    jfLookup (compactJsonFields fields) k = some (compactJsonSchema v)
  | .nil, k, v, _, hv => by simp [jfLookup] at hv
  | .cons key val rest, k, v, hk, hv => by
    by_cases hkey : key ∈ strippedKeys
    · rw [compactJsonFields, if_pos hkey]
      have hne : key ≠ k := by
        intro h
        exact hk (h ▸ hkey)
      rw [jfLookup, if_neg hne] at hv
      exact jfLookup_compact rest hk hv
    · rw [compactJsonFields, if_neg hkey]
      by_cases heq : key = k
      · rw [jfLookup, if_pos heq] at hv
        rw [jfLookup, if_pos heq]
        exact congrArg (some ∘ compactJsonSchema) (Option.some.inj hv)
      · rw [jfLookup, if_neg heq] at hv
        rw [jfLookup, if_neg heq]
        exact jfLookup_compact rest hk hv

mutual
theorem compactJsonSchema_of_pure :
    (j : Json) → jsonPure j = true → compactJsonSchema j = j
  | .null, _ => rfl
  | .bool _, _ => rfl
  | .num _, _ => rfl
  | .str _, _ => rfl
  | .arr l, h => by
    rw [compactJsonSchema, compactJsonItems_of_pure l (by simpa [jsonPure] using h)]
  | .obj _, h => by simp [jsonPure] at h

theorem compactJsonItems_of_pure :
    (l : JsonItems) → jsonItemsPure l = true → compactJsonItems l = l
  | .nil, _ => rfl
  | .cons v rest, h => by
    rw [jsonItemsPure, Bool.and_eq_true] at h
    rw [compactJsonItems, compactJsonSchema_of_pure v h.1,
      compactJsonItems_of_pure rest h.2]
end

/-! ## Tool-name encoding and decoding  (plugin-registry.ts)

`toLLMTools` builds tool names as `pluginName + "__" + actionName`;
`parseToolName` decodes with JavaScript `toolName.split('__')`, taking the
first two components and throwing when either is falsy (missing or empty).
`splitSep` reimplements `String.prototype.split` with the two-character
separator `"__"`: leftmost, non-overlapping matches. -/

deriving instance DecidableEq for Except

/-- JavaScript `s.split('__')` on the character list of `s`. -/
def splitSep : List Char → List (List Char)
  | [] => [[]]
  | [c] => [[c]]
  | c :: d :: rest =>
    if c = '_' ∧ d = '_' then [] :: splitSep rest
    else
      match splitSep (d :: rest) with
      | [] => [[c]]
      | p :: ps => (c :: p) :: ps

/-- Does the character list contain the separator `"__"`? -/
def hasSep : List Char → Bool
  | c :: d :: rest => (c = '_' && d = '_') || hasSep (d :: rest)
  | _ => false

/-- Does the character list end with an underscore? -/
def endsU : List Char → Bool
  | [] => false
  | [c] => c = '_'
  | _ :: d :: rest => endsU (d :: rest)

/-- Embedding of the tool-name construction in `PluginRegistry.toLLMTools`. -/
def encodeToolName (pluginName actionName : String) : String :=
  pluginName ++ "__" ++ actionName

/-- Embedding of `PluginRegistry.parseToolName`: destructure the first two
components of the split (a missing component is `undefined`, modelled like
the empty string — both are falsy in the `!pluginName || !actionName`
test, which throws). -/
def parseToolName (toolName : String) : Except String (String × String) :=
  let parts := splitSep toolName.toList
  let pluginName := parts.getD 0 []
  let actionName := parts.getD 1 []
  if pluginName.isEmpty || actionName.isEmpty then
    .error ("Invalid tool name format: \"" ++ toolName ++
      "\". Expected \"pluginName__actionName\"")
  else .ok (pluginName.asString, actionName.asString)

theorem splitSep_ne_nil : (s : List Char) → splitSep s ≠ []
  | [] => by rw [splitSep]; exact List.cons_ne_nil _ _
  | [c] => by rw [splitSep]; exact List.cons_ne_nil _ _
  | c :: d :: rest => by
    rw [splitSep]
    by_cases h : c = '_' ∧ d = '_'
    · rw [if_pos h]; exact List.cons_ne_nil _ _
    · rw [if_neg h]
      match splitSep (d :: rest) with
      | [] => exact List.cons_ne_nil _ _
      | p :: ps => exact List.cons_ne_nil _ _

theorem splitSep_noSep : (s : List Char) → hasSep s = false → splitSep s = [s]
  | [], _ => rfl
  | [c], _ => rfl
  | c :: d :: rest, h => by
    rw [hasSep, Bool.or_eq_false_iff] at h
    have hcd : ¬(c = '_' ∧ d = '_') := by
      intro hand
      simp [hand.1, hand.2] at h
    rw [splitSep, if_neg hcd, splitSep_noSep (d :: rest) h.2]

theorem splitSep_boundary : (p : List Char) → ∀ (a : List Char),
    hasSep p = false → endsU p = false →
    splitSep (p ++ '_' :: '_' :: a) = p :: splitSep a
  | [], a, _, _ => by
    rw [List.nil_append, splitSep, if_pos ⟨rfl, rfl⟩]
  | [c], a, _, he => by
    have hc : ¬(c = '_') := by
      rw [endsU] at he
      exact fun hcc => by simp [hcc] at he
    have hcd : ¬(c = '_' ∧ ('_' : Char) = '_') := fun hand => hc hand.1
    have hb : splitSep ('_' :: '_' :: a) = [] :: splitSep a := by
      rw [splitSep, if_pos ⟨rfl, rfl⟩]
    show splitSep (c :: '_' :: '_' :: a) = [c] :: splitSep a
    rw [splitSep, if_neg hcd, hb]
  | c :: d :: rest, a, h, he => by
    rw [hasSep, Bool.or_eq_false_iff] at h
    have hcd : ¬(c = '_' ∧ d = '_') := by
      intro hand
      simp [hand.1, hand.2] at h
    rw [endsU] at he
    show splitSep (c :: d :: (rest ++ '_' :: '_' :: a)) = (c :: d :: rest) :: splitSep a
    rw [splitSep, if_neg hcd]
    have ih : splitSep (d :: rest ++ '_' :: '_' :: a) = (d :: rest) :: splitSep a :=
      splitSep_boundary (d :: rest) a h.2 he
    rw [show d :: (rest ++ '_' :: '_' :: a) = d :: rest ++ '_' :: '_' :: a from rfl, ih]

theorem toList_ne_nil_of_ne_empty {s : String} (h : s ≠ "") : s.toList ≠ [] := by
  intro hnil
  apply h
  have := congrArg List.asString hnil
  rwa [String.asString_toList] at this

theorem encodeToolName_toList (p a : String) :
    (encodeToolName p a).toList = p.toList ++ '_' :: '_' :: a.toList := by
  show (p ++ "__" ++ a).toList = p.toList ++ '_' :: '_' :: a.toList
  simp [String.toList, String.data_append]

/-! ## Manifest data model  (openapi/src/types.ts shapes used by createAction) -/

inductive HttpMethod where
  | GET | POST | PUT | PATCH | DELETE
  deriving DecidableEq

/-- The `in` field of a declared parameter. -/
inductive ParamLoc where
  | path | query | header | body
  deriving DecidableEq

structure ManifestParameter where
  name : String
  loc : ParamLoc
  required : Bool
  deriving DecidableEq

structure ManifestAction where
  id : String
  description : String
  method : HttpMethod
  path : String
  parameters : List ManifestParameter
  deriving DecidableEq

inductive AuthType where
  | none | bearer | api_key | oauth2
  deriving DecidableEq

structure AuthConfig where
  type : AuthType
  api_key_header : Option String
  deriving DecidableEq

structure Manifest where
  name : String
  base_url : String
  auth : Option AuthConfig
  deriving DecidableEq

/-- Nested `oauth` sub-record of a credential record. -/
structure OAuthRecord where
  access_token : Option String
  refresh_token : Option String
  deriving DecidableEq

/-- Credential record (flat map passed in from outside); `none` models an
absent key. -/
structure Credentials where
  token : Option String
  api_key : Option String
  access_token : Option String
  oauth : Option OAuthRecord
  deriving DecidableEq

/-- JavaScript truthiness of an optional string (absent and `""` are falsy). -/
def truthy : Option String → Bool
  | some s => !s.isEmpty
  | Option.none => false

/-! ## String conversions used by createAction -/

mutual
/-- JavaScript `String(value)` conversion. -/
def jsToString : Json → String
  | .null => "null"
  | .bool b => if b then "true" else "false"
  | .num n => toString n
  | .str s => s
  | .arr l => jsItemsToString l
  | .obj _ => "[object Object]"

/-- `Array.prototype.toString` joins with `,`, rendering a `null` element
as the empty string. -/
def jsItemsToString : JsonItems → String
  | .nil => ""
  | .cons .null .nil => ""
  | .cons v .nil => jsToString v
  | .cons .null rest => "," ++ jsItemsToString rest
  | .cons v rest => jsToString v ++ "," ++ jsItemsToString rest
end

/-- Uppercase hexadecimal digit. -/
def hexDigitUpper (n : Nat) : Char :=
  if n < 10 then Char.ofNat (48 + n) else Char.ofNat (55 + n)

/-- Lowercase hexadecimal digit. -/
def hexDigitLower (n : Nat) : Char :=
  if n < 10 then Char.ofNat (48 + n) else Char.ofNat (87 + n)

/-- Percent-encoding of one byte, `%XX`. -/
def percentEncodeByte (b : Nat) : String :=
  "%" ++ String.mk [hexDigitUpper (b / 16), hexDigitUpper (b % 16)]

/-- UTF-8 bytes of a character. -/
def utf8Bytes (c : Char) : List Nat :=
  let n := c.toNat
  if n < 128 then [n]
  else if n < 2048 then [192 + n / 64, 128 + n % 64]
  else if n < 65536 then [224 + n / 4096, 128 + (n / 64) % 64, 128 + n % 64]
  else [240 + n / 262144, 128 + (n / 4096) % 64, 128 + (n / 64) % 64, 128 + n % 64]

/-- Characters left unescaped by JavaScript `encodeURIComponent`. -/
def uriUnreserved (c : Char) : Bool :=
  c.isAlphanum || c = '-' || c = '_' || c = '.' || c = '!' || c = '~' ||
    c = '*' || c = Char.ofNat 39 || c = '(' || c = ')'

/-- JavaScript `encodeURIComponent`. -/
def encodeURIComponent (s : String) : String :=
  String.join (s.toList.map (fun c =>
    if uriUnreserved c then String.mk [c]
    else String.join ((utf8Bytes c).map percentEncodeByte)))

/-- Characters left unescaped by the `application/x-www-form-urlencoded`
serializer used by `URLSearchParams.toString()`. -/
def formUnreserved (c : Char) : Bool :=
  c.isAlphanum || c = '*' || c = '-' || c = '.' || c = '_'

/-- One character of the `x-www-form-urlencoded` serialization. -/
def formEncodeChar (c : Char) : String :=
  if c = ' ' then "+"
  else if formUnreserved c then String.mk [c]
  else String.join ((utf8Bytes c).map percentEncodeByte)

/-- `URLSearchParams`-style encoding of one component. -/
def formEncode (s : String) : String :=
  String.join (s.toList.map formEncodeChar)

/-- `new URLSearchParams(queryParams).toString()`. -/
def serializeQuery (qp : List (String × String)) : String :=
  String.intercalate "&" (qp.map (fun p => formEncode p.1 ++ "=" ++ formEncode p.2))

/-- JSON string escaping for `JSON.stringify`. -/
def jsonEscapeChar (c : Char) : String :=
  if c = '"' then "\\\""
  else if c = '\\' then "\\\\"
  else if c = '\n' then "\\n"
  else if c = '\r' then "\\r"
  else if c = '\t' then "\\t"
  else if c.toNat < 32 then
    "\\u00" ++ String.mk [hexDigitLower (c.toNat / 16), hexDigitLower (c.toNat % 16)]
  else String.mk [c]

/-- JSON string literal. -/
def jsonQuote (s : String) : String :=
  "\"" ++ String.join (s.toList.map jsonEscapeChar) ++ "\""

mutual
/-- JavaScript `JSON.stringify`. -/
def jsonStringify : Json → String
  | .null => "null"
  | .bool b => if b then "true" else "false"
  | .num n => toString n
  | .str s => jsonQuote s
  | .arr l => "[" ++ jsonStringifyItems l ++ "]"
  | .obj f => "\x7b" ++ jsonStringifyFields f ++ "\x7d"

def jsonStringifyItems : JsonItems → String
  | .nil => ""
  | .cons v .nil => jsonStringify v
  | .cons v rest => jsonStringify v ++ "," ++ jsonStringifyItems rest

def jsonStringifyFields : JsonFields → String
  | .nil => ""
  | .cons k v .nil => jsonQuote k ++ ":" ++ jsonStringify v
  | .cons k v rest => jsonQuote k ++ ":" ++ jsonStringify v ++ "," ++ jsonStringifyFields rest
end

/-! ## JavaScript `String.prototype.replace` with a string pattern
(first occurrence only) -/

def listStartsWith : List Char → List Char → Bool
  | _, [] => true
  | [], _ :: _ => false
  | c :: cs, p :: ps => c = p && listStartsWith cs ps

def replaceFirstL (pat repl : List Char) : List Char → List Char
  | [] => if listStartsWith [] pat then repl else []
  | c :: rest =>
    if listStartsWith (c :: rest) pat then repl ++ (c :: rest).drop pat.length
    else c :: replaceFirstL pat repl rest

/-- JavaScript `s.replace(pat, repl)` for a plain string pattern. -/
def replaceFirst (s pat repl : String) : String :=
  (replaceFirstL pat.toList repl.toList s.toList).asString

/-! ## Request construction  (manifest-to-plugin.ts, `createAction`)

`createAction(...).execute(params)` builds a URL, query record, header
record and body record from the declared parameters, injects auth headers
from the credential record, and attaches a JSON body only for mutating
methods with a non-empty body object.  The pure request-construction part is
embedded here; `resolvedParams` is the `resolvedParams` local of the source
(equal to the input params except for the Spotify `user_id` convenience
hook, which may have rewritten one entry before distribution). -/

/-- Lookup in a string-valued record (headers / query params). -/
def lookupEntry : List (String × String) → String → Option String
  | [], _ => none
  | (k, v) :: rest, key => if k = key then some v else lookupEntry rest key

/-- Property assignment on a string-valued record. -/
def setEntry : List (String × String) → String → String → List (String × String)
  | [], key, v => [(key, v)]
  | (k, w) :: rest, key, v =>
    if k = key then (k, v) :: rest else (k, w) :: setEntry rest key v

/-- Number of entries carrying the given key. -/
def countEntry : List (String × String) → String → Nat
  | [], _ => 0
  | (k, _) :: rest, key => (if k = key then 1 else 0) + countEntry rest key

/-- Auth-header injection of `createAction` (lines 59-75 of
manifest-to-plugin.ts; the identical logic appears in
mcp-server.ts, `executeAction`). -/
def injectAuth (manifest : Manifest) (credentials : Option Credentials)
    (headers : List (String × String)) : List (String × String) :=
  match credentials with
  | Option.none => headers
  | some cred =>
    if (manifest.auth.map AuthConfig.type = some AuthType.bearer) ∧ truthy cred.token then
      setEntry headers "Authorization" ("Bearer " ++ cred.token.getD "")
    else if (manifest.auth.map AuthConfig.type = some AuthType.api_key) ∧
        truthy (manifest.auth.bind AuthConfig.api_key_header) then
      setEntry headers ((manifest.auth.bind AuthConfig.api_key_header).getD "")
        ((cred.api_key <|> cred.token).getD "")
    else if manifest.auth.map AuthConfig.type = some AuthType.oauth2 then
      let accessToken := cred.access_token <|> (cred.oauth.bind OAuthRecord.access_token) <|> cred.token
      if truthy accessToken then
        setEntry headers "Authorization" ("Bearer " ++ accessToken.getD "")
      else headers
    else headers

/-- Mutable request-building state of `createAction.execute`: the `url`,
`queryParams`, `headers` and `bodyParams` locals. -/
structure RequestParts where
  url : String
  queryParams : List (String × String)
  headers : List (String × String)
  bodyParams : JsonFields
  deriving DecidableEq

/-- The `\x7bname\x7d` placeholder of a path parameter. -/
def pathPlaceholder (name : String) : String :=
  "\x7b" ++ name ++ "\x7d"

/-- The parameter-distribution loop of `createAction.execute` ("Distribute
params to path, query, header, body"). -/
def distributeParams : List ManifestParameter → JsonFields → RequestParts → RequestParts
  | [], _, st => st
  | p :: rest, resolved, st =>
    match jfLookup resolved p.name with
    | Option.none => distributeParams rest resolved st
    | some v =>
      match p.loc with
      | .path =>
        distributeParams rest resolved (RequestParts.mk
          (replaceFirst st.url (pathPlaceholder p.name) (encodeURIComponent (jsToString v)))
          st.queryParams st.headers st.bodyParams)
      | .query =>
        distributeParams rest resolved (RequestParts.mk st.url
          (setEntry st.queryParams p.name (jsToString v)) st.headers st.bodyParams)
      | .header =>
        distributeParams rest resolved (RequestParts.mk st.url st.queryParams
          (setEntry st.headers p.name (jsToString v)) st.bodyParams)
      | .body =>
        distributeParams rest resolved (RequestParts.mk st.url st.queryParams
          st.headers (jfSet st.bodyParams p.name v))

/-- POST / PUT / PATCH — the methods for which a body is attached. -/
def mutatingMethod : HttpMethod → Bool
  | .POST => true
  | .PUT => true
  | .PATCH => true
  | _ => false

/-- The request as assembled by `createAction.execute` just before `fetch`:
final URL (query string appended), headers, and optional serialized body. -/
structure BuiltRequest where
  url : String
  headers : List (String × String)
  queryParams : List (String × String)
  bodyParams : JsonFields
  body : Option String
  deriving DecidableEq

/-- Embedding of the request construction of `createAction.execute`
(everything before the `fetch` call). -/
def buildRequest (manifest : Manifest) (action : ManifestAction)
    (credentials : Option Credentials) (resolvedParams : JsonFields) : BuiltRequest :=
  let url0 := manifest.base_url ++ action.path
  let headers0 : List (String × String) :=
    [("Content-Type", "application/json"), ("Accept", "application/json")]
  let headers1 := injectAuth manifest credentials headers0
  let st := distributeParams action.parameters resolvedParams
    (RequestParts.mk url0 [] headers1 JsonFields.nil)
  let qs := serializeQuery st.queryParams
  let url1 := if qs = "" then st.url else st.url ++ "?" ++ qs
  let body :=
    if mutatingMethod action.method && !(jfIsEmpty st.bodyParams) then
      some (jsonStringify (Json.obj st.bodyParams))
    else Option.none
  BuiltRequest.mk url1 st.headers st.queryParams st.bodyParams body

/-! ## Core runtime types  (core/src/types.ts) -/

structure LLMTool where
  name : String
  description : String
  parameters : Json
  deriving DecidableEq

structure ToolCall where
  id : String
  pluginName : String
  actionName : String
  parameters : Json
  deriving DecidableEq

structure ActionResult where
  success : Bool
  message : String
  data : Option Json
  deriving DecidableEq

structure ToolResult where
  toolCallId : String
  result : ActionResult
  deriving DecidableEq

inductive Role where
  | system | user | assistant | tool
  deriving DecidableEq

structure Message where
  role : Role
  content : String
  toolCallId : Option String
  toolCalls : Option (List ToolCall)
  deriving DecidableEq

structure Session where
  id : String
  messages : List Message
  metadata : JsonFields
  deriving DecidableEq

structure LLMResponse where
  text : Option String
  toolCalls : Option (List ToolCall)
  deriving DecidableEq

structure ActionContext where
  session : Session
  ask : String → String

/-- Outcome of running an action's `execute` function: a returned result or
a thrown exception with its message. -/
inductive ExecOutcome where
  | ok (result : ActionResult)
  | threw (message : String)

/-- Core `Action` of types.ts (named `CoreAction` here because Mathlib
already has an `Action`).  The source's single zod schema `parameters`
plays two roles, modelled as two fields: `safeParse` is its validation
behaviour (issue messages on failure), `paramsSchema` is the object
produced by the external `zodToJsonSchema(action.parameters)` call in
`toLLMTools`. -/
structure CoreAction where
  name : String
  description : String
  safeParse : Json → Except (List String) Json
  paramsSchema : JsonFields
  execute : Json → ActionContext → ExecOutcome

structure Plugin where
  name : String
  description : String
  version : String
  actions : List CoreAction

/-- `PluginRegistry`: the `plugins` map in insertion order, keyed by
`plugin.name` (`register` enforces key uniqueness). -/
structure PluginRegistry where
  plugins : List Plugin

/-- Embedding of `PluginRegistry.getPlugin`. -/
def getPlugin (reg : PluginRegistry) (name : String) : Option Plugin :=
  reg.plugins.find? (fun p => p.name = name)

/-- Embedding of `PluginRegistry.getAction`. -/
def getAction (reg : PluginRegistry) (pluginName actionName : String) : Option CoreAction :=
  match getPlugin reg pluginName with
  | Option.none => Option.none
  | some plugin => plugin.actions.find? (fun a => a.name = actionName)

/-- Removal of the one `$schema` key added by `zodToJsonSchema`
(the rest-destructuring in `toLLMTools`). -/
def jfRemoveKey : JsonFields → String → JsonFields
  | .nil, _ => .nil
  | .cons k v rest, key => if k = key then rest else .cons k v (jfRemoveKey rest key)

/-- Embedding of `PluginRegistry.toLLMTools`. -/
def toLLMTools (reg : PluginRegistry) : List LLMTool :=
  reg.plugins.flatMap (fun plugin =>
    plugin.actions.map (fun action =>
      LLMTool.mk (plugin.name ++ "__" ++ action.name)
        ("[" ++ plugin.name ++ "] " ++ action.description)
        (compactJsonSchema (Json.obj (jfRemoveKey action.paramsSchema "$schema")))))

/-! ## Relevance selection  (plugin-registry.ts, `selectLLMTools`) -/

/-- Stopword list of `tokenize`. -/
def stopwords : List String :=
  ["the", "a", "an", "to", "for", "with", "and", "or", "of", "in", "on", "at", "is", "are",
   "can", "could", "would", "should", "please", "me", "my", "you", "your", "it", "this", "that",
   "any", "from", "via", "by"]

/-- A character matched by the token regex `[a-z0-9_]+` (after lowercasing). -/
def isTokenChar (c : Char) : Bool :=
  (97 ≤ c.toNat && c.toNat ≤ 122) || c.isDigit || c = '_'

/-- Maximal runs of token characters (`text.match(/[a-z0-9_]+/g)`);
`cur` accumulates the current run in reverse. -/
def tokenRuns : List Char → List Char → List (List Char)
  | [], cur => if cur.isEmpty then [] else [cur.reverse]
  | c :: rest, cur =>
    if isTokenChar c then tokenRuns rest (c :: cur)
    else if cur.isEmpty then tokenRuns rest []
    else cur.reverse :: tokenRuns rest []

/-- Insertion into a JavaScript `Set` modelled as an ordered list. -/
def addUnique (l : List String) (s : String) : List String :=
  if l.contains s then l else l ++ [s]

/-- Embedding of `PluginRegistry.tokenize`: lowercase word tokens,
stopword-filtered, with naive plural stripping added to the set. -/
def tokenize (text : String) : List String :=
  let tokens := ((tokenRuns text.toLower.toList []).map List.asString).filter
    (fun t => !(stopwords.contains t))
  tokens.foldl (fun acc token =>
    let acc1 := addUnique acc token
    if token.endsWith "s" && token.length > 3 then
      addUnique acc1 (token.toList.dropLast.asString)
    else acc1) []

/-- The domain synonym table of `expandQueryTokens`. -/
def synonyms (token : String) : List String :=
  if token = "song" then ["track", "music"]
  else if token = "songs" then ["tracks", "music"]
  else if token = "find" then ["search", "lookup", "get"]
  else if token = "discover" then ["search", "recommendations"]
  else if token = "play" then ["playback", "start"]
  else if token = "pause" then ["playback"]
  else if token = "skip" then ["next", "previous"]
  else if token = "liked" then ["saved", "library"]
  else []

/-- Embedding of `PluginRegistry.expandQueryTokens`. -/
def expandQueryTokens (tokens : List String) : List String :=
  tokens.foldl (fun expanded token => (synonyms token).foldl addUnique expanded) tokens

/-- Embedding of `PluginRegistry.countOverlap`. -/
def countOverlap (a b : List String) : Nat :=
  (a.filter (fun token => b.contains token)).length

/-- JavaScript `s.includes(pat)`. -/
def listContainsSub (pat : List Char) : List Char → Bool
  | [] => listStartsWith [] pat
  | c :: rest => listStartsWith (c :: rest) pat || listContainsSub pat rest

/-- JavaScript `s.includes(pat)` on strings. -/
def strIncludes (s pat : String) : Bool :=
  listContainsSub pat.toList s.toList

/-- Embedding of `PluginRegistry.actionBasePriority`. -/
def actionBasePriority (actionName : String) : Nat :=
  let n := actionName.toLower
  if strIncludes n "search" || strIncludes n "find" then 18
  else if strIncludes n "list" then 12
  else if n.startsWith "get_" || strIncludes n "get" then 10
  else if strIncludes n "create" || strIncludes n "add" || strIncludes n "start" then 8
  else if strIncludes n "update" || strIncludes n "edit" || strIncludes n "save" then 7
  else if strIncludes n "delete" || strIncludes n "remove" then 6
  else 4

/-- `actionName.replace(/_/g, ' ')`. -/
def replaceUnderscores (s : String) : String :=
  (s.toList.map (fun c => if c = '_' then ' ' else c)).asString

structure ScoredTool where
  tool : LLMTool
  pluginName : String
  score : Nat
  deriving DecidableEq

/-- The comparator `(a, b) => b.score - a.score || a.tool.name.localeCompare(b.tool.name)`
(descending score, ties by name; `localeCompare` modelled as lexicographic
comparison). -/
def scoredLe (a b : ScoredTool) : Bool :=
  b.score < a.score || (a.score = b.score && a.tool.name ≤ b.tool.name)

/-- One entry of the `scored` array of `selectLLMTools`; `parseToolName`
may throw, which propagates out of the `map`. -/
def scoreTool (queryTokens mentionedPlugins : List String) (rawInput : String)
    (tool : LLMTool) : Except String ScoredTool :=
  match parseToolName tool.name with
  | .error e => .error e
  | .ok (pluginName, actionName) =>
    let actionTokens := tokenize (replaceUnderscores actionName)
    let descTokens := tokenize tool.description
    let overlapAction := countOverlap queryTokens actionTokens
    let overlapDesc := countOverlap queryTokens descTokens
    let basePriority := actionBasePriority actionName
    let score0 := basePriority + overlapAction * 8 + overlapDesc * 3
    let score1 := if mentionedPlugins.contains pluginName.toLower then score0 + 30 else score0
    let score2 := if rawInput.length > 2 && strIncludes tool.name.toLower rawInput then
      score1 + 20 else score1
    .ok (ScoredTool.mk tool pluginName score2)

/-- The `allTools.map(...)` building `scored` (sequential, first thrown
error propagates). -/
def scoreTools (queryTokens mentionedPlugins : List String) (rawInput : String) :
    List LLMTool → Except String (List ScoredTool)
  | [] => .ok []
  | tool :: rest =>
    match scoreTool queryTokens mentionedPlugins rawInput tool with
    | .error e => .error e
    | .ok s =>
      match scoreTools queryTokens mentionedPlugins rawInput rest with
      | .error e => .error e
      | .ok ss => .ok (s :: ss)

/-- Embedding of `PluginRegistry.selectLLMTools`.  `maxTools` is a
JavaScript number, kept as `Int` so the `maxTools <= 0` guard is faithful. -/
def selectLLMTools (reg : PluginRegistry) (userInput : String) (maxTools : Int) :
    Except String (List LLMTool) :=
  let allTools := toLLMTools reg
  if maxTools ≤ 0 ∨ (allTools.length : Int) ≤ maxTools then .ok allTools
  else
    let queryTokens := expandQueryTokens (tokenize userInput)
    let rawInput := userInput.toLower.trim
    let pluginNames := (reg.plugins.map (fun p => p.name.toLower)).foldl addUnique []
    let mentionedPlugins := pluginNames.filter
      (fun p => queryTokens.contains p || strIncludes userInput.toLower p)
    match scoreTools queryTokens mentionedPlugins rawInput allTools with
    | .error e => .error e
    | .ok scored =>
      let sorted := scored.mergeSort scoredLe
      if !mentionedPlugins.isEmpty then
        let focused := ((sorted.filter
          (fun s => mentionedPlugins.contains s.pluginName.toLower)).take maxTools.toNat).map
          ScoredTool.tool
        if maxTools ≤ (focused.length : Int) then .ok focused
        else
          let rest := ((sorted.filter
            (fun s => !(mentionedPlugins.contains s.pluginName.toLower))).take
            (maxTools - focused.length).toNat).map ScoredTool.tool
          .ok (focused ++ rest)
      else .ok ((sorted.take maxTools.toNat).map ScoredTool.tool)

/-! ## ActionExecutor  (core/src/action-executor.ts) -/

/-- Embedding of `ActionExecutor.execute`.  Every branch — unknown action,
validation failure, thrown exception — returns a structured `ToolResult`;
nothing escapes. -/
def ActionExecutor.execute (reg : PluginRegistry) (toolCall : ToolCall)
    (session : Session) (askUser : String → String) : ToolResult :=
  match getAction reg toolCall.pluginName toolCall.actionName with
  | Option.none =>
    ToolResult.mk toolCall.id (ActionResult.mk false
      ("Unknown action: " ++ toolCall.pluginName ++ "." ++ toolCall.actionName) Option.none)
  | some action =>
    match action.safeParse toolCall.parameters with
    | .error issues =>
      ToolResult.mk toolCall.id (ActionResult.mk false
        ("Invalid parameters: " ++ String.intercalate ", " issues) Option.none)
    | .ok parsed =>
      match action.execute parsed (ActionContext.mk session askUser) with
      | .ok result => ToolResult.mk toolCall.id result
      | .threw msg =>
        ToolResult.mk toolCall.id (ActionResult.mk false ("Action failed: " ++ msg) Option.none)

/-- Embedding of `ActionExecutor.executeAll`: `Promise.all` over the mapped
calls resolves to the results in input order. -/
def ActionExecutor.executeAll (reg : PluginRegistry) (toolCalls : List ToolCall)
    (session : Session) (askUser : String → String) : List ToolResult :=
  toolCalls.map (fun tc => ActionExecutor.execute reg tc session askUser)

/-! ## Engine chat loop  (core/src/engine.ts, `AgentBridgeEngine.chat`) -/

/-- `JSON.stringify(tr.result)` content of a tool message: the
`ActionResult` as a JSON object (optional `data` omitted when absent). -/
def actionResultToJson (r : ActionResult) : Json :=
  Json.obj (JsonFields.cons "success" (Json.bool r.success)
    (match r.data with
     | some d => JsonFields.cons "data" d (JsonFields.cons "message" (Json.str r.message) .nil)
     | Option.none => JsonFields.cons "message" (Json.str r.message) .nil))

def stuckMessage : String := "I got stuck in a loop. Please try again."

def noTextMessage : String := "I have nothing to say."

/-- The `maxIterations = 10` constant of `AgentBridgeEngine.chat`
("prevent infinite tool-calling loops"). -/
def maxIterations : Nat := 10

/-- One response has tool calls when `response.toolCalls` is present and
non-empty (the `!response.toolCalls || response.toolCalls.length === 0`
test, negated). -/
def hasToolCalls (response : LLMResponse) : Bool :=
  match response.toolCalls with
  | some (_ :: _) => true
  | _ => false

/-- The `for (let i = 0; i < maxIterations; i++)` loop of
`AgentBridgeEngine.chat`, with the message history threaded explicitly (the
source reads and appends it through the ConversationManager of the single
session).  Returns the reply, the final history, and the number of LLM
calls performed. -/
def engineLoop (llm : List Message → List LLMTool → LLMResponse) (reg : PluginRegistry)
    (session : Session) (askUser : String → String) (tools : List LLMTool) :
    Nat → List Message → String × List Message × Nat
  | 0, msgs => (stuckMessage, msgs, 0)
  | Nat.succ n, msgs =>
    let response := llm msgs tools
    match response.toolCalls with
    | some (tc :: tcs) =>
      let toolCalls := tc :: tcs
      let msgs1 := msgs ++
        [Message.mk .assistant (response.text.getD "") Option.none (some toolCalls)]
      let toolResults := ActionExecutor.executeAll reg toolCalls session askUser
      let msgs2 := msgs1 ++ toolResults.map (fun tr =>
        Message.mk .tool (jsonStringify (actionResultToJson tr.result))
          (some tr.toolCallId) Option.none)
      let next := engineLoop llm reg session askUser tools n msgs2
      (next.1, next.2.1, next.2.2 + 1)
    | _ =>
      let text := response.text.getD noTextMessage
      (text, msgs ++ [Message.mk .assistant text Option.none Option.none], 1)

/-- Embedding of `AgentBridgeEngine.chat` for an existing session: append
the user message, compute the tool list once, and run the bounded loop. -/
def AgentBridgeEngine.chat (llm : List Message → List LLMTool → LLMResponse)
    (reg : PluginRegistry) (session : Session) (userMessage : String)
    (askUser : String → String) : String × List Message × Nat :=
  let msgs0 := session.messages ++ [Message.mk .user userMessage Option.none Option.none]
  let tools := toLLMTools reg
  engineLoop llm reg session askUser tools maxIterations msgs0

/-! ## OpenAI provider retry ladder  (llm/src/openai.ts, `OpenAIProvider.chat`) -/

/-- Error thrown by the provider SDK: HTTP-like status and message. -/
structure ApiError where
  status : Option Nat
  message : String
  deriving DecidableEq

/-- Embedding of the try/catch of `OpenAIProvider.chat` around the SDK call
`this.client.chat.completions.create` (injected here as `call`; `α` is the
SDK's opaque completion object, handed to `parseResponse` by the caller).
The first attempt passes `undefined` instead of an empty tool array. -/
def openaiChatAttempts {α : Type} (call : Option (List LLMTool) → Except ApiError α)
    (openaiTools : List LLMTool) : Except ApiError α :=
  match call (if openaiTools.isEmpty then Option.none else some openaiTools) with
  | .ok response => .ok response
  | .error err =>
    if err.status = some 400 && strIncludes err.message "Failed to" then
      call Option.none
    else if err.status = some 413 && !openaiTools.isEmpty then
      call (some (openaiTools.take (max 1 (openaiTools.length / 2))))
    else .error err

/-! ## ConversationManager  (core/src/conversation.ts)

The sessions `Map` in insertion order; `randomUUID()` is modelled as a
deterministic fresh-id counter (ids play no role beyond identity). -/

structure ConversationManager where
  sessions : List (String × Session)
  nextId : Nat
  deriving DecidableEq

def ConversationManager.empty : ConversationManager :=
  ConversationManager.mk [] 0

/-- Embedding of `ConversationManager.create`. -/
def ConversationManager.create (cm : ConversationManager) : Session × ConversationManager :=
  let session := Session.mk (toString cm.nextId) [] JsonFields.nil
  (session, ConversationManager.mk (cm.sessions ++ [(session.id, session)]) (cm.nextId + 1))

/-- Embedding of `ConversationManager.get`. -/
def ConversationManager.get (cm : ConversationManager) (sessionId : String) : Option Session :=
  (cm.sessions.find? (fun p => p.1 = sessionId)).map Prod.snd

/-- Embedding of `ConversationManager.addMessage` (throws on an unknown
session). -/
def ConversationManager.addMessage (cm : ConversationManager) (sessionId : String)
    (message : Message) : Except String ConversationManager :=
  match cm.get sessionId with
  | Option.none => .error ("Session not found: " ++ sessionId)
  | some _ => .ok (ConversationManager.mk
      (cm.sessions.map (fun p =>
        if p.1 = sessionId then
          (p.1, Session.mk p.2.id (p.2.messages ++ [message]) p.2.metadata)
        else p))
      cm.nextId)

/-- Embedding of `ConversationManager.getMessages`. -/
def ConversationManager.getMessages (cm : ConversationManager) (sessionId : String) :
    List Message :=
  ((cm.get sessionId).map Session.messages).getD []

/-- Embedding of `ConversationManager.destroy`. -/
def ConversationManager.destroy (cm : ConversationManager) (sessionId : String) :
    ConversationManager :=
  ConversationManager.mk (cm.sessions.filter (fun p => !(p.1 = sessionId))) cm.nextId

/-- `n` successive `create()` calls starting from an empty manager. -/
def createN : Nat → ConversationManager
  | 0 => ConversationManager.empty
  | Nat.succ n => ((createN n).create).2

/-! ## Claim C6 — schema compaction -/

/-- C6 counterexample: compaction does not preserve "every entry of nested
'properties' maps, whatever the property is named" — a declared parameter
named `description` is stripped from the `properties` map, because
`compactJsonSchema` filters the metadata key names at every nesting level.
Here the schema `\x7bproperties: \x7bdescription: \x7btype: "string"\x7d\x7d\x7d`
loses its only property. -/
theorem c6_compaction_counterexample :
    compactJsonSchema (Json.obj (JsonFields.cons "properties"
      (Json.obj (JsonFields.cons "description"
        (Json.obj (JsonFields.cons "type" (Json.str "string") JsonFields.nil))
        JsonFields.nil)) JsonFields.nil))
    = Json.obj (JsonFields.cons "properties" (Json.obj JsonFields.nil) JsonFields.nil)
    ∧ jfLookup (JsonFields.cons "description"
        (Json.obj (JsonFields.cons "type" (Json.str "string") JsonFields.nil))
        JsonFields.nil) "description" ≠ Option.none := by
  exact ⟨by decide, by decide⟩

/-- C6 (amended): schema compaction is idempotent; an entry of any object
node — including entries of nested `properties` maps — survives (with its
value compacted recursively) if and only if its key is not one of the
stripped metadata keys (`description`, `default`, `examples`, `title`,
`$id`, `$comment`); any value free of object nodes (such as the string
value of `type` or the string arrays of `required`/`enum`) is returned
unchanged. -/
theorem c6_compaction :
    (∀ j, compactJsonSchema (compactJsonSchema j) = compactJsonSchema j)
    ∧ (∀ fields k v, k ∉ strippedKeys → jfLookup fields k = some v →
        jfLookup (compactJsonFields fields) k = some (compactJsonSchema v))
    ∧ (∀ j, jsonPure j = true → compactJsonSchema j = j) := by
  refine ⟨compactJsonSchema_idem, ?_, compactJsonSchema_of_pure⟩
  intro fields k v hk hv
  exact jfLookup_compact fields hk hv

/-- C6 witness: the amended theorem applied at a concrete schema. -/
theorem c6_compaction_witness :
    compactJsonSchema (compactJsonSchema (Json.obj (JsonFields.cons "type"
      (Json.str "object") JsonFields.nil)))
      = compactJsonSchema (Json.obj (JsonFields.cons "type" (Json.str "object") JsonFields.nil))
    ∧ jfLookup (compactJsonFields (JsonFields.cons "type" (Json.str "string") JsonFields.nil))
        "type" = some (compactJsonSchema (Json.str "string"))
    ∧ compactJsonSchema (Json.str "string") = Json.str "string" :=
  ⟨c6_compaction.1 _,
   c6_compaction.2.1 (JsonFields.cons "type" (Json.str "string") JsonFields.nil) "type"
     (Json.str "string") (by decide) (by decide),
   c6_compaction.2.2 (Json.str "string") (by decide)⟩

/-! ## Claim C3 — tool-name round trip -/

theorem splitSep_sep_cons (l : List Char) : splitSep ('_' :: '_' :: l) = [] :: splitSep l := by
  cases l with
  | nil => decide
  | cons c rest => rw [splitSep, if_pos ⟨rfl, rfl⟩]

theorem parseToolName_of_split {t : String} {p a : List Char} {rest : List (List Char)}
    (h : splitSep t.toList = p :: a :: rest) (hp : p ≠ []) (ha : a ≠ []) :
    parseToolName t = .ok (p.asString, a.asString) := by
  unfold parseToolName
  rw [h]
  simp [List.getD, List.isEmpty_iff, hp, ha]

/-- The error message thrown by `parseToolName`. -/
def invalidToolNameMsg (toolName : String) : String :=
  "Invalid tool name format: \"" ++ toolName ++ "\". Expected \"pluginName__actionName\""

theorem parseToolName_error_of_first_empty {t : String} {rest : List (List Char)}
    (h : splitSep t.toList = [] :: rest) :
    ∃ e, parseToolName t = .error e := by
  refine ⟨invalidToolNameMsg t, ?_⟩
  unfold parseToolName invalidToolNameMsg
  rw [h]
  rfl

/-- C3 counterexample: the plugin name `p_` and action name `a` are both
non-empty and neither contains the separator `__`, yet decoding the encoded
name `p___a` yields `("p", "_a")`, not `("p_", "a")` — JavaScript `split`
finds the leftmost `__`, which starts at the plugin name's trailing
underscore. -/
theorem c3_tool_name_codec_counterexample :
    parseToolName (encodeToolName "p_" "a") = .ok ("p", "_a")
    ∧ parseToolName (encodeToolName "p_" "a") ≠ .ok ("p_", "a")
    ∧ hasSep "p_".toList = false ∧ hasSep "a".toList = false := by
  refine ⟨by decide, by decide, by decide, by decide⟩

/-- C3 (amended): encode/decode round-trips exactly when both components
are non-empty, neither contains the separator `__`, and additionally the
plugin name does not end with `_`; decoding fails with an error for any
string lacking the separator, for `"__" ++ s` (empty first component), and
for `p ++ "__"` (empty second component, `p` separator-free and not
underscore-terminated). -/
theorem c3_tool_name_codec :
    (∀ p a : String, p ≠ "" → a ≠ "" → hasSep p.toList = false →
      endsU p.toList = false → hasSep a.toList = false →
      parseToolName (encodeToolName p a) = .ok (p, a))
    ∧ (∀ s : String, hasSep s.toList = false → ∃ e, parseToolName s = .error e)
    ∧ (∀ a : String, ∃ e, parseToolName ("__" ++ a) = .error e)
    ∧ (∀ p : String, hasSep p.toList = false → endsU p.toList = false →
      ∃ e, parseToolName (p ++ "__") = .error e) := by
  refine ⟨?_, ?_, ?_, ?_⟩
  · intro p a hp ha hps hpe has
    have h2 : splitSep (encodeToolName p a).toList = p.toList :: a.toList :: [] := by
      rw [encodeToolName_toList, splitSep_boundary p.toList a.toList hps hpe,
        splitSep_noSep a.toList has]
    rw [parseToolName_of_split h2 (toList_ne_nil_of_ne_empty hp)
      (toList_ne_nil_of_ne_empty ha), String.asString_toList, String.asString_toList]
  · intro s hs
    have h1 : splitSep s.toList = [s.toList] := splitSep_noSep s.toList hs
    refine ⟨invalidToolNameMsg s, ?_⟩
    unfold parseToolName invalidToolNameMsg
    rw [h1]
    simp [List.getD]
  · intro a
    have h1 : ("__" ++ a).toList = '_' :: '_' :: a.toList := by
      simp [String.toList, String.data_append]
    have h2 : splitSep ("__" ++ a).toList = [] :: splitSep a.toList := by
      rw [h1, splitSep_sep_cons]
    exact parseToolName_error_of_first_empty h2
  · intro p hps hpe
    have h1 : (p ++ "__").toList = p.toList ++ '_' :: '_' :: [] := by
      simp [String.toList, String.data_append]
    have h2 : splitSep (p ++ "__").toList = p.toList :: [] :: [] := by
      rw [h1, splitSep_boundary p.toList [] hps hpe]
      rfl
    refine ⟨invalidToolNameMsg (p ++ "__"), ?_⟩
    unfold parseToolName invalidToolNameMsg
    rw [h2]
    simp [List.getD]

/-- C3 witness: the amended round trip at `("weather", "get_weather")`, and
the decoding failure at the separator-free string `"weather"`. -/
theorem c3_tool_name_codec_witness :
    parseToolName (encodeToolName "weather" "get_weather") = .ok ("weather", "get_weather")
    ∧ ∃ e, parseToolName "weather" = .error e :=
  ⟨c3_tool_name_codec.1 "weather" "get_weather" (by decide) (by decide) (by decide)
      (by decide) (by decide),
   c3_tool_name_codec.2.1 "weather" (by decide)⟩

/-! ## Claims C7 and C10 — ActionExecutor -/

/-- Every branch of `ActionExecutor.execute` tags the result with the
requesting tool call's id. -/
theorem executeToolCall_id (reg : PluginRegistry) (tc : ToolCall) (s : Session)
    (ask : String → String) : (ActionExecutor.execute reg tc s ask).toolCallId = tc.id := by
  unfold ActionExecutor.execute
  cases hga : getAction reg tc.pluginName tc.actionName with
  | none => simp
  | some action =>
    cases hsp : action.safeParse tc.parameters with
    | error issues => simp [hsp]
    | ok parsed =>
      cases hex : action.execute parsed (ActionContext.mk s ask) with
      | ok result => simp [hsp, hex]
      | threw msg => simp [hsp, hex]

/-- C7: `ActionExecutor.execute` is total — every tool call yields a
structured `ToolResult` carrying the call's id: an unknown plugin/action
yields the failed "Unknown action" result; a validation failure yields the
failed result joining the issue messages with ", "; an exception thrown by
the action's execute function is converted to the failed
"Action failed: reason" result. -/
theorem c7_executor_never_throws :
    (∀ reg tc s ask, (ActionExecutor.execute reg tc s ask).toolCallId = tc.id)
    ∧ (∀ reg tc s ask, getAction reg tc.pluginName tc.actionName = Option.none →
        ActionExecutor.execute reg tc s ask = ToolResult.mk tc.id (ActionResult.mk false
          ("Unknown action: " ++ tc.pluginName ++ "." ++ tc.actionName) Option.none))
    ∧ (∀ reg tc s ask action issues, getAction reg tc.pluginName tc.actionName = some action →
        action.safeParse tc.parameters = .error issues →
        ActionExecutor.execute reg tc s ask = ToolResult.mk tc.id (ActionResult.mk false
          ("Invalid parameters: " ++ String.intercalate ", " issues) Option.none))
    ∧ (∀ reg tc s ask action parsed msg, getAction reg tc.pluginName tc.actionName = some action →
        action.safeParse tc.parameters = .ok parsed →
        action.execute parsed (ActionContext.mk s ask) = .threw msg →
        ActionExecutor.execute reg tc s ask = ToolResult.mk tc.id (ActionResult.mk false
          ("Action failed: " ++ msg) Option.none)) := by
  refine ⟨executeToolCall_id, ?_, ?_, ?_⟩
  · intro reg tc s ask h
    unfold ActionExecutor.execute
    rw [h]
  · intro reg tc s ask action issues hga hsp
    unfold ActionExecutor.execute
    rw [hga]
    simp [hsp]
  · intro reg tc s ask action parsed msg hga hsp hex
    unfold ActionExecutor.execute
    rw [hga]
    simp [hsp, hex]

/-- C7 witness: the theorem applied to a concrete registry and tool calls
exercising the unknown-action, invalid-parameters and thrown branches. -/
theorem c7_executor_never_throws_witness :
    ((ActionExecutor.execute (PluginRegistry.mk []) (ToolCall.mk "id1" "p" "a" Json.null)
      (Session.mk "s" [] JsonFields.nil) (fun _ => "")).toolCallId = "id1")
    ∧ (ActionExecutor.execute (PluginRegistry.mk []) (ToolCall.mk "id1" "p" "a" Json.null)
        (Session.mk "s" [] JsonFields.nil) (fun _ => "")
        = ToolResult.mk "id1" (ActionResult.mk false "Unknown action: p.a" Option.none)) := by
  constructor
  · exact c7_executor_never_throws.1 (PluginRegistry.mk []) (ToolCall.mk "id1" "p" "a" Json.null)
      (Session.mk "s" [] JsonFields.nil) (fun _ => "")
  · have h := c7_executor_never_throws.2.1 (PluginRegistry.mk [])
      (ToolCall.mk "id1" "p" "a" Json.null) (Session.mk "s" [] JsonFields.nil)
      (fun _ => "") (by rfl)
    simpa using h

/-- C10: `executeAll` preserves request order — the result list has the
same length as the tool-call list and the i-th result's `toolCallId` is the
i-th call's id (stated as equality of the projected lists). -/
theorem c10_executeAll_order :
    ∀ reg toolCalls s ask,
      (ActionExecutor.executeAll reg toolCalls s ask).length = toolCalls.length
      ∧ (ActionExecutor.executeAll reg toolCalls s ask).map ToolResult.toolCallId
          = toolCalls.map ToolCall.id := by
  intro reg toolCalls s ask
  constructor
  · exact List.length_map _ _
  · unfold ActionExecutor.executeAll
    rw [List.map_map]
    exact List.map_congr_left (fun tc _ => executeToolCall_id reg tc s ask)

/-- C10 witness: order preservation at a concrete two-call list. -/
theorem c10_executeAll_order_witness :
    (ActionExecutor.executeAll (PluginRegistry.mk [])
      [ToolCall.mk "x" "p" "a" Json.null, ToolCall.mk "y" "q" "b" Json.null]
      (Session.mk "s" [] JsonFields.nil) (fun _ => "")).map ToolResult.toolCallId
    = ["x", "y"] := by
  have h := (c10_executeAll_order (PluginRegistry.mk [])
    [ToolCall.mk "x" "p" "a" Json.null, ToolCall.mk "y" "q" "b" Json.null]
    (Session.mk "s" [] JsonFields.nil) (fun _ => "")).2
  simpa using h

/-! ## Claim C9 — session store -/

/-- C9 counterexample: the session store has no configured maximum and no
eviction — three `create()` calls from an empty manager leave three stored
sessions (so any purported cap of 2 is exceeded) and the oldest-inserted
session `"0"` is still present. -/
theorem c9_session_store_counterexample :
    (createN 3).sessions.length = 3
    ∧ ¬((createN 3).sessions.length ≤ 2)
    ∧ (createN 3).sessions.map Prod.fst = ["0", "1", "2"] := by
  refine ⟨by decide, by decide, by decide⟩

/-- C9 (amended): the in-memory session store is unbounded and evicts
nothing — `create` always adds one session and keeps every existing one,
`addMessage` never changes the session count, and after `n` creates from an
empty manager exactly `n` sessions are stored. -/
theorem c9_session_store :
    (∀ cm : ConversationManager, ((cm.create).2).sessions.length = cm.sessions.length + 1)
    ∧ (∀ (cm : ConversationManager) e, e ∈ cm.sessions → e ∈ ((cm.create).2).sessions)
    ∧ (∀ (cm : ConversationManager) sid m cm', cm.addMessage sid m = .ok cm' →
        cm'.sessions.length = cm.sessions.length)
    ∧ (∀ n, (createN n).sessions.length = n) := by
  refine ⟨?_, ?_, ?_, ?_⟩
  · intro cm
    simp [ConversationManager.create]
  · intro cm e he
    simp only [ConversationManager.create]
    exact List.mem_append_left _ he
  · intro cm sid m cm' h
    unfold ConversationManager.addMessage at h
    cases hg : cm.get sid with
    | none => rw [hg] at h; exact absurd h (by simp)
    | some s =>
      rw [hg] at h
      simp only [Except.ok.injEq] at h
      rw [← h]
      simp
  · intro n
    induction n with
    | zero => rfl
    | succ k ih =>
      show ((createN k).create).2.sessions.length = k + 1
      simp [ConversationManager.create, ih]

/-- C9 witness: the amended theorem applied at a concrete manager. -/
theorem c9_session_store_witness :
    ((ConversationManager.empty.create).2).sessions.length
      = ConversationManager.empty.sessions.length + 1
    ∧ (createN 2).sessions.length = 2 :=
  ⟨c9_session_store.1 ConversationManager.empty, c9_session_store.2.2.2 2⟩

/-! ## Claim C4 — provider retry ladder -/

/-- C4 counterexample: with two tools and a backend that rejects every
request with a 413 size-class error, `OpenAIProvider.chat` retries exactly
once (with the tool list halved) and then lets the second rejection
propagate as an exception — there is no subsequent zero-tool retry and the
caller does observe the error.  (The Claude provider has no retry logic at
all.) -/
theorem c4_retry_ladder_counterexample :
    openaiChatAttempts
      (fun _ => (.error (ApiError.mk (some 413) "Request Entity Too Large") : Except ApiError Bool))
      [LLMTool.mk "p__a" "d" Json.null, LLMTool.mk "p__b" "d" Json.null]
    = .error (ApiError.mk (some 413) "Request Entity Too Large") := by
  decide

/-- C4 (amended): the adapter performs at most one retry, not a two-step
ladder — on a 400 rejection whose message contains "Failed to" it retries
once with no tools; otherwise, on a 413 rejection with tools present it
retries once with the tool list halved (`slice(0, max(1, ⌊n/2⌋))`); the
retried call's outcome (including a second rejection) is returned to the
caller unchanged, and every other error propagates immediately. -/
theorem c4_retry_ladder :
    ∀ (α : Type) (call : Option (List LLMTool) → Except ApiError α) (tools : List LLMTool),
      (∀ r, call (if tools.isEmpty then Option.none else some tools) = .ok r →
        openaiChatAttempts call tools = .ok r)
      ∧ (∀ err, call (if tools.isEmpty then Option.none else some tools) = .error err →
          (err.status = some 400 && strIncludes err.message "Failed to") = true →
          openaiChatAttempts call tools = call Option.none)
      ∧ (∀ err, call (if tools.isEmpty then Option.none else some tools) = .error err →
          (err.status = some 400 && strIncludes err.message "Failed to") = false →
          (err.status = some 413 && !tools.isEmpty) = true →
          openaiChatAttempts call tools = call (some (tools.take (max 1 (tools.length / 2)))))
      ∧ (∀ err, call (if tools.isEmpty then Option.none else some tools) = .error err →
          (err.status = some 400 && strIncludes err.message "Failed to") = false →
          (err.status = some 413 && !tools.isEmpty) = false →
          openaiChatAttempts call tools = .error err) := by
  intro α call tools
  refine ⟨?_, ?_, ?_, ?_⟩
  · intro r h
    unfold openaiChatAttempts
    rw [h]
  · intro err h h400
    unfold openaiChatAttempts
    rw [h]
    simp [h400]
  · intro err h h400 h413
    unfold openaiChatAttempts
    rw [h]
    simp [h400, h413]
  · intro err h h400 h413
    unfold openaiChatAttempts
    rw [h]
    simp [h400, h413]

/-- C4 witness: the amended theorem applied to a concrete backend that
accepts the first attempt, and to one whose 400 "Failed to" rejection is
retried without tools. -/
theorem c4_retry_ladder_witness :
    openaiChatAttempts (fun _ => (.ok true : Except ApiError Bool))
      [LLMTool.mk "p__a" "d" Json.null] = .ok true
    ∧ openaiChatAttempts
        (fun arg => (if arg = Option.none then .ok false
          else .error (ApiError.mk (some 400) "Failed to generate") : Except ApiError Bool))
        [LLMTool.mk "p__a" "d" Json.null] = .ok false := by
  constructor
  · exact (c4_retry_ladder Bool (fun _ => .ok true) [LLMTool.mk "p__a" "d" Json.null]).1
      true (by rfl)
  · have h := (c4_retry_ladder Bool
      (fun arg => (if arg = Option.none then .ok false
        else .error (ApiError.mk (some 400) "Failed to generate") : Except ApiError Bool))
      [LLMTool.mk "p__a" "d" Json.null]).2.1
      (ApiError.mk (some 400) "Failed to generate") (by decide) (by decide)
    rw [h]
    rfl

/-! ## Claim C2 — oauth2 token priority -/

theorem lookupEntry_setEntry_self :
    ∀ (l : List (String × String)) (k v : String), lookupEntry (setEntry l k v) k = some v := by
  intro l k v
  induction l with
  | nil => simp [setEntry, lookupEntry]
  | cons hd tl ih =>
    by_cases h : hd.1 = k
    · simp [setEntry, h, lookupEntry]
    · simp [setEntry, h, lookupEntry, ih]

theorem injectAuth_some (m : Manifest) (cred : Credentials) (headers : List (String × String)) :
    injectAuth m (some cred) headers =
      (if (m.auth.map AuthConfig.type = some AuthType.bearer) ∧ truthy cred.token then
        setEntry headers "Authorization" ("Bearer " ++ cred.token.getD "")
      else if (m.auth.map AuthConfig.type = some AuthType.api_key) ∧
          truthy (m.auth.bind AuthConfig.api_key_header) then
        setEntry headers ((m.auth.bind AuthConfig.api_key_header).getD "")
          ((cred.api_key <|> cred.token).getD "")
      else if m.auth.map AuthConfig.type = some AuthType.oauth2 then
        (if truthy (cred.access_token <|> (cred.oauth.bind OAuthRecord.access_token) <|> cred.token)
         then setEntry headers "Authorization" ("Bearer " ++
           (cred.access_token <|> (cred.oauth.bind OAuthRecord.access_token) <|> cred.token).getD "")
         else headers)
      else headers) := rfl

/-- Helper shared by the C2 theorems: the oauth2 branch of the auth
injection. -/
theorem injectAuth_oauth2 (m : Manifest) (cred : Credentials)
    (headers : List (String × String))
    (hauth : m.auth.map AuthConfig.type = some AuthType.oauth2) :
    injectAuth m (some cred) headers =
      (if truthy (cred.access_token <|> (cred.oauth.bind OAuthRecord.access_token) <|> cred.token)
       then setEntry headers "Authorization" ("Bearer " ++
         (cred.access_token <|> (cred.oauth.bind OAuthRecord.access_token) <|> cred.token).getD "")
       else headers) := by
  rw [injectAuth_some]
  have h1 : ¬((m.auth.map AuthConfig.type = some AuthType.bearer) ∧ truthy cred.token = true) := by
    intro hand
    rw [hauth] at hand
    exact absurd (Option.some.inj hand.1) (by decide)
  have h2 : ¬((m.auth.map AuthConfig.type = some AuthType.api_key) ∧
      truthy (m.auth.bind AuthConfig.api_key_header) = true) := by
    intro hand
    rw [hauth] at hand
    exact absurd (Option.some.inj hand.1) (by decide)
  rw [if_neg h1, if_neg h2, if_pos hauth]

/-- C2 counterexample: with auth type `oauth2`, a top-level `access_token`
of `"top"` and a nested `oauth.access_token` of `"nested"`, the compiled
request carries `Authorization: Bearer top` — the top-level field wins, the
reverse of the claimed priority. -/
theorem c2_oauth_priority_counterexample :
    lookupEntry (buildRequest
      (Manifest.mk "svc" "https://svc.example" (some (AuthConfig.mk AuthType.oauth2 Option.none)))
      (ManifestAction.mk "act" "" HttpMethod.GET "/x" [])
      (some (Credentials.mk Option.none Option.none (some "top")
        (some (OAuthRecord.mk (some "nested") Option.none))))
      JsonFields.nil).headers "Authorization" = some "Bearer top"
    ∧ ("Bearer top" : String) ≠ "Bearer nested" := by
  refine ⟨by decide, by decide⟩

/-- C2 (amended): for an `oauth2` manifest with a present credential
record, the access token is chosen by the nullish chain
`credentials.access_token ?? credentials.oauth.access_token ??
credentials.token` — the TOP-LEVEL `access_token` first, the nested
`oauth` sub-record second, the plain `token` third — and the
`Authorization: Bearer` header is set only when the chosen value is
truthy (present and non-empty). -/
theorem c2_oauth_priority :
    (∀ (m : Manifest) (cred : Credentials) (headers : List (String × String)),
      m.auth.map AuthConfig.type = some AuthType.oauth2 →
      injectAuth m (some cred) headers =
        (if truthy (cred.access_token <|> (cred.oauth.bind OAuthRecord.access_token) <|> cred.token)
         then setEntry headers "Authorization" ("Bearer " ++
           (cred.access_token <|> (cred.oauth.bind OAuthRecord.access_token) <|> cred.token).getD "")
         else headers))
    ∧ (∀ (m : Manifest) (a : ManifestAction) (cred : Credentials) (resolved : JsonFields),
        m.auth.map AuthConfig.type = some AuthType.oauth2 → a.parameters = [] →
        truthy (cred.access_token <|> (cred.oauth.bind OAuthRecord.access_token) <|> cred.token) = true →
        lookupEntry (buildRequest m a (some cred) resolved).headers "Authorization" =
          some ("Bearer " ++
            (cred.access_token <|> (cred.oauth.bind OAuthRecord.access_token) <|> cred.token).getD ""))
    ∧ (∀ (cred : Credentials) (t : String), cred.access_token = some t →
        (cred.access_token <|> (cred.oauth.bind OAuthRecord.access_token) <|> cred.token) = some t) := by
  refine ⟨injectAuth_oauth2, ?_, ?_⟩
  · intro m a cred resolved hauth hparams htr
    have hh : (buildRequest m a (some cred) resolved).headers =
        injectAuth m (some cred)
          [("Content-Type", "application/json"), ("Accept", "application/json")] := by
      unfold buildRequest
      rw [hparams]
      rfl
    rw [hh, injectAuth_oauth2 m cred _ hauth, if_pos htr]
    exact lookupEntry_setEntry_self _ _ _
  · intro cred t h
    rw [h]
    rfl

/-- C2 witness: the amended theorem applied at a concrete oauth2 manifest
whose credential record has only the nested token. -/
theorem c2_oauth_priority_witness :
    lookupEntry (buildRequest
      (Manifest.mk "svc" "https://svc.example" (some (AuthConfig.mk AuthType.oauth2 Option.none)))
      (ManifestAction.mk "act" "" HttpMethod.GET "/x" [])
      (some (Credentials.mk Option.none Option.none Option.none
        (some (OAuthRecord.mk (some "nested") Option.none))))
      JsonFields.nil).headers "Authorization" = some ("Bearer " ++
        ((Option.none <|> ((some (OAuthRecord.mk (some "nested") Option.none)).bind
          OAuthRecord.access_token) <|> Option.none : Option String)).getD "") :=
  c2_oauth_priority.2.1
    (Manifest.mk "svc" "https://svc.example" (some (AuthConfig.mk AuthType.oauth2 Option.none)))
    (ManifestAction.mk "act" "" HttpMethod.GET "/x" [])
    (Credentials.mk Option.none Option.none Option.none
      (some (OAuthRecord.mk (some "nested") Option.none)))
    JsonFields.nil (by decide) (by decide) (by decide)

/-! ## Claim C8 — bounded engine loop -/

theorem engineLoop_calls_le (llm : List Message → List LLMTool → LLMResponse)
    (reg : PluginRegistry) (session : Session) (ask : String → String)
    (tools : List LLMTool) :
    ∀ (fuel : Nat) (msgs : List Message),
      (engineLoop llm reg session ask tools fuel msgs).2.2 ≤ fuel := by
  intro fuel
  induction fuel with
  | zero => intro msgs; exact Nat.le_refl 0
  | succ n ih =>
    intro msgs
    rw [engineLoop]
    cases hc : (llm msgs tools).toolCalls with
    | none => simp [hc]
    | some l =>
      cases l with
      | nil => simp [hc]
      | cons tc tcs =>
        simp only [hc]
        exact Nat.succ_le_succ (ih _)

theorem engineLoop_adversarial (llm : List Message → List LLMTool → LLMResponse)
    (reg : PluginRegistry) (session : Session) (ask : String → String)
    (tools : List LLMTool)
    (hAdv : ∀ msgs, hasToolCalls (llm msgs tools) = true) :
    ∀ (fuel : Nat) (msgs : List Message),
      (engineLoop llm reg session ask tools fuel msgs).1 = stuckMessage
      ∧ (engineLoop llm reg session ask tools fuel msgs).2.2 = fuel := by
  intro fuel
  induction fuel with
  | zero => intro msgs; exact ⟨rfl, rfl⟩
  | succ n ih =>
    intro msgs
    have hex : ∃ tc tcs, (llm msgs tools).toolCalls = some (tc :: tcs) := by
      have h := hAdv msgs
      unfold hasToolCalls at h
      cases hc : (llm msgs tools).toolCalls with
      | none => rw [hc] at h; exact absurd h (by decide)
      | some l =>
        cases l with
        | nil => rw [hc] at h; exact absurd h (by decide)
        | cons tc tcs => exact hc ▸ ⟨tc, tcs, hc⟩
    obtain ⟨tc, tcs, hc⟩ := hex
    rw [engineLoop]
    simp only [hc]
    exact ⟨(ih _).1, by rw [(ih _).2]⟩

/-- C8: for every model, registry and session, `chat` performs at most
`maxIterations = 10` model calls and terminates; under an adversarial model
whose every response carries tool calls, it performs exactly 10 calls and
returns the fixed stuck message instead of looping or throwing. -/
theorem c8_engine_cap :
    (∀ llm reg session ask userMessage,
      (AgentBridgeEngine.chat llm reg session userMessage ask).2.2 ≤ maxIterations)
    ∧ (∀ llm reg session ask userMessage,
        (∀ msgs, hasToolCalls (llm msgs (toLLMTools reg)) = true) →
        (AgentBridgeEngine.chat llm reg session userMessage ask).1 = stuckMessage
        ∧ (AgentBridgeEngine.chat llm reg session userMessage ask).2.2 = maxIterations) := by
  constructor
  · intro llm reg session ask userMessage
    exact engineLoop_calls_le llm reg session ask (toLLMTools reg) maxIterations _
  · intro llm reg session ask userMessage hAdv
    exact ⟨(engineLoop_adversarial llm reg session ask (toLLMTools reg) hAdv maxIterations _).1,
      (engineLoop_adversarial llm reg session ask (toLLMTools reg) hAdv maxIterations _).2⟩

/-- C8 witness: a concrete model stub that always requests a tool call gets
the stuck message after exactly 10 model calls. -/
theorem c8_engine_cap_witness :
    (AgentBridgeEngine.chat
      (fun _ _ => LLMResponse.mk Option.none (some [ToolCall.mk "1" "p" "a" Json.null]))
      (PluginRegistry.mk []) (Session.mk "s" [] JsonFields.nil) "hello"
      (fun _ => "")).1 = stuckMessage
    ∧ (AgentBridgeEngine.chat
        (fun _ _ => LLMResponse.mk Option.none (some [ToolCall.mk "1" "p" "a" Json.null]))
        (PluginRegistry.mk []) (Session.mk "s" [] JsonFields.nil) "hello"
        (fun _ => "")).2.2 = maxIterations :=
  c8_engine_cap.2
    (fun _ _ => LLMResponse.mk Option.none (some [ToolCall.mk "1" "p" "a" Json.null]))
    (PluginRegistry.mk []) (Session.mk "s" [] JsonFields.nil) (fun _ => "") "hello"
    (fun _ => rfl)

/-! ## Claim C5 — relevance-selection budget -/

/-- C5 counterexample: with one registered tool and `maxTools = 0`, the
`maxTools <= 0` guard returns ALL tools — one entry, which is more than
`maxTools` — so "at most maxTools for every integer maxTools" fails. -/
theorem c5_selection_budget_counterexample :
    selectLLMTools (PluginRegistry.mk [Plugin.mk "p" "d" "1"
      [CoreAction.mk "a" "desc" (fun j => .ok j)
        (JsonFields.cons "type" (Json.str "object") JsonFields.nil)
        (fun _ _ => ExecOutcome.ok (ActionResult.mk true "" Option.none))]]) "x" 0
      = .ok (toLLMTools (PluginRegistry.mk [Plugin.mk "p" "d" "1"
        [CoreAction.mk "a" "desc" (fun j => .ok j)
          (JsonFields.cons "type" (Json.str "object") JsonFields.nil)
          (fun _ _ => ExecOutcome.ok (ActionResult.mk true "" Option.none))]]))
    ∧ (toLLMTools (PluginRegistry.mk [Plugin.mk "p" "d" "1"
        [CoreAction.mk "a" "desc" (fun j => .ok j)
          (JsonFields.cons "type" (Json.str "object") JsonFields.nil)
          (fun _ _ => ExecOutcome.ok (ActionResult.mk true "" Option.none))]])).length = 1
    ∧ ¬((1 : Int) ≤ 0) := by
  refine ⟨by rfl, by rfl, by decide⟩

theorem c5_take_le (n : Nat) (l : List ScoredTool) (m : Int) (h0 : 0 ≤ m) (hn : n = m.toNat) :
    ((((l.take n).map ScoredTool.tool).length : Int)) ≤ m := by
  rw [List.length_map]
  have h2 := List.length_take_le n l
  omega

theorem c5_take_append_le (n1 : Nat) (l1 l2 : List ScoredTool) (m : Int)
    (hfill : ¬ (m ≤ ((((l1.take n1).map ScoredTool.tool).length : Nat) : Int))) :
    (((((l1.take n1).map ScoredTool.tool) ++
      ((l2.take ((m - ((((l1.take n1).map ScoredTool.tool).length : Nat) : Int)).toNat)).map
        ScoredTool.tool)).length : Nat) : Int) ≤ m := by
  have ha := List.length_take_le n1 l1
  have hb := List.length_take_le
    ((m - ((((l1.take n1).map ScoredTool.tool).length : Nat) : Int)).toNat) l2
  rw [List.length_append, List.length_map, List.length_map]
  rw [List.length_map] at hfill hb
  omega

/-- C5 (amended): for every positive `maxTools` the selection returns at
most `maxTools` tools; whenever the total tool count is at most `maxTools`
— or `maxTools ≤ 0`, the uncovered guard case — it returns all tools. -/
theorem c5_selection_budget :
    (∀ reg input maxTools tools, 1 ≤ maxTools →
      selectLLMTools reg input maxTools = .ok tools → (tools.length : Int) ≤ maxTools)
    ∧ (∀ reg input maxTools, (maxTools ≤ 0 ∨ ((toLLMTools reg).length : Int) ≤ maxTools) →
        selectLLMTools reg input maxTools = .ok (toLLMTools reg)) := by
  constructor
  · intro reg input maxTools tools h1 h
    unfold selectLLMTools at h
    dsimp only at h
    split at h
    · rename_i hg
      rw [Except.ok.injEq] at h
      rw [← h]
      rcases hg with hg | hg
      · omega
      · exact hg
    · split at h
      · exact absurd h (by simp)
      · split at h
        · split at h
          · rw [Except.ok.injEq] at h
            rw [← h]
            exact c5_take_le _ _ _ (by omega) rfl
          · rename_i hfill
            rw [Except.ok.injEq] at h
            rw [← h]
            exact c5_take_append_le _ _ _ _ hfill
        · rw [Except.ok.injEq] at h
          rw [← h]
          exact c5_take_le _ _ _ (by omega) rfl
  · intro reg input maxTools hg
    unfold selectLLMTools
    rw [if_pos hg]

/-- C5 witness: the amended theorem applied at a concrete registry with one
tool and budget 5 (returning all tools, one entry, within budget). -/
theorem c5_selection_budget_witness :
    selectLLMTools (PluginRegistry.mk [Plugin.mk "p" "d" "1"
      [CoreAction.mk "a" "desc" (fun j => .ok j)
        (JsonFields.cons "type" (Json.str "object") JsonFields.nil)
        (fun _ _ => ExecOutcome.ok (ActionResult.mk true "" Option.none))]]) "x" 5
      = .ok (toLLMTools (PluginRegistry.mk [Plugin.mk "p" "d" "1"
        [CoreAction.mk "a" "desc" (fun j => .ok j)
          (JsonFields.cons "type" (Json.str "object") JsonFields.nil)
          (fun _ _ => ExecOutcome.ok (ActionResult.mk true "" Option.none))]])) :=
  c5_selection_budget.2 (PluginRegistry.mk [Plugin.mk "p" "d" "1"
    [CoreAction.mk "a" "desc" (fun j => .ok j)
      (JsonFields.cons "type" (Json.str "object") JsonFields.nil)
      (fun _ _ => ExecOutcome.ok (ActionResult.mk true "" Option.none))]]) "x" 5
    (Or.inr (by decide))

/-! ## Claim C1 — parameter routing -/

/-- The `\x7b` character. -/
def lbraceChar : Char := Char.ofNat 123

/-- The `\x7d` character. -/
def rbraceChar : Char := Char.ofNat 125

theorem asString_append (l1 l2 : List Char) :
    (l1 ++ l2).asString = l1.asString ++ l2.asString := rfl

theorem pathPlaceholder_toList (name : String) :
    (pathPlaceholder name).toList = lbraceChar :: (name.toList ++ [rbraceChar]) := by
  unfold pathPlaceholder
  simp [String.toList, String.data_append]
  exact ⟨by decide, by decide⟩

theorem listStartsWith_append_self :
    ∀ (pat t : List Char), listStartsWith (pat ++ t) pat = true := by
  intro pat
  induction pat with
  | nil => intro t; cases t <;> rfl
  | cons c cs ih =>
    intro t
    show (c = c && listStartsWith (cs ++ t) cs) = true
    rw [ih t]
    simp

theorem replaceFirstL_of_startsWith {s pat : List Char} (repl : List Char)
    (h : listStartsWith s pat = true) :
    replaceFirstL pat repl s = repl ++ s.drop pat.length := by
  cases s with
  | nil =>
    rw [replaceFirstL, if_pos h]
    simp
  | cons c rest => rw [replaceFirstL, if_pos h]

theorem replaceFirstL_skip {pre : List Char} (pat repl s : List Char)
    (hpre : lbraceChar ∉ pre) :
    replaceFirstL (lbraceChar :: pat) repl (pre ++ s)
      = pre ++ replaceFirstL (lbraceChar :: pat) repl s := by
  induction pre with
  | nil => rfl
  | cons c cs ih =>
    have hc : c ≠ lbraceChar := fun h => hpre (h ▸ List.mem_cons_self c cs)
    have hsw : listStartsWith (c :: (cs ++ s)) (lbraceChar :: pat) = false := by
      show (c = lbraceChar && listStartsWith (cs ++ s) pat) = false
      simp [hc]
    rw [List.cons_append, replaceFirstL, if_neg (by rw [hsw]; exact Bool.false_ne_true),
      ih (fun h => hpre (List.mem_cons_of_mem c h))]
    rfl

theorem countEntry_setEntry_self :
    ∀ (l : List (String × String)) (k v : String), countEntry l k ≤ 1 →
      countEntry (setEntry l k v) k = 1 := by
  intro l k v
  induction l with
  | nil => intro _; simp [setEntry, countEntry]
  | cons hd tl ih =>
    intro hle
    rcases hd with ⟨k0, v0⟩
    by_cases h : k0 = k
    · rw [countEntry, if_pos h] at hle
      rw [setEntry, if_pos h, countEntry, if_pos h]
      omega
    · rw [countEntry, if_neg h] at hle
      rw [setEntry, if_neg h, countEntry, if_neg h]
      simpa using ih (by omega)

theorem countEntry_setEntry_ne :
    ∀ (l : List (String × String)) (k v k' : String), k ≠ k' →
      countEntry (setEntry l k v) k' = countEntry l k' := by
  intro l k v k' hne
  induction l with
  | nil => simp [setEntry, countEntry, hne]
  | cons hd tl ih =>
    rcases hd with ⟨k0, v0⟩
    by_cases h : k0 = k
    · rw [setEntry, if_pos h, countEntry, countEntry]
    · rw [setEntry, if_neg h, countEntry, countEntry, ih]

theorem jfCount_set_self :
    (l : JsonFields) → ∀ (k : String) (v : Json), jfCount l k ≤ 1 →
      jfCount (jfSet l k v) k = 1
  | .nil, k, v, _ => by simp [jfSet, jfCount]
  | .cons k0 v0 tl, k, v, hle => by
    by_cases h : k0 = k
    · rw [jfCount, if_pos h] at hle
      rw [jfSet, if_pos h, jfCount, if_pos h]
      omega
    · rw [jfCount, if_neg h] at hle
      rw [jfSet, if_neg h, jfCount, if_neg h]
      simpa using jfCount_set_self tl k v (by omega)

theorem jfCount_set_ne :
    (l : JsonFields) → ∀ (k : String) (v : Json) (k' : String), k ≠ k' →
      jfCount (jfSet l k v) k' = jfCount l k'
  | .nil, k, v, k', hne => by simp [jfSet, jfCount, hne]
  | .cons k0 v0 tl, k, v, k', hne => by
    by_cases h : k0 = k
    · rw [jfSet, if_pos h, jfCount, jfCount]
    · rw [jfSet, if_neg h, jfCount, jfCount, jfCount_set_ne tl k v k' hne]

theorem distributeParams_cons_none {q : ManifestParameter} {rest : List ManifestParameter}
    {resolved : JsonFields} {st : RequestParts} (h : jfLookup resolved q.name = Option.none) :
    distributeParams (q :: rest) resolved st = distributeParams rest resolved st := by
  rw [distributeParams, h]

theorem distributeParams_cons_path {q : ManifestParameter} {rest : List ManifestParameter}
    {resolved : JsonFields} {st : RequestParts} {v : Json}
    (h : jfLookup resolved q.name = some v) (hloc : q.loc = ParamLoc.path) :
    distributeParams (q :: rest) resolved st = distributeParams rest resolved
      (RequestParts.mk
        (replaceFirst st.url (pathPlaceholder q.name) (encodeURIComponent (jsToString v)))
        st.queryParams st.headers st.bodyParams) := by
  rw [distributeParams, h, hloc]

theorem distributeParams_cons_query {q : ManifestParameter} {rest : List ManifestParameter}
    {resolved : JsonFields} {st : RequestParts} {v : Json}
    (h : jfLookup resolved q.name = some v) (hloc : q.loc = ParamLoc.query) :
    distributeParams (q :: rest) resolved st = distributeParams rest resolved
      (RequestParts.mk st.url (setEntry st.queryParams q.name (jsToString v))
        st.headers st.bodyParams) := by
  rw [distributeParams, h, hloc]

theorem distributeParams_cons_header {q : ManifestParameter} {rest : List ManifestParameter}
    {resolved : JsonFields} {st : RequestParts} {v : Json}
    (h : jfLookup resolved q.name = some v) (hloc : q.loc = ParamLoc.header) :
    distributeParams (q :: rest) resolved st = distributeParams rest resolved
      (RequestParts.mk st.url st.queryParams
        (setEntry st.headers q.name (jsToString v)) st.bodyParams) := by
  rw [distributeParams, h, hloc]

theorem distributeParams_cons_body {q : ManifestParameter} {rest : List ManifestParameter}
    {resolved : JsonFields} {st : RequestParts} {v : Json}
    (h : jfLookup resolved q.name = some v) (hloc : q.loc = ParamLoc.body) :
    distributeParams (q :: rest) resolved st = distributeParams rest resolved
      (RequestParts.mk st.url st.queryParams st.headers
        (jfSet st.bodyParams q.name v)) := by
  rw [distributeParams, h, hloc]

theorem distrib_query_inv :
    ∀ (ps : List ManifestParameter) (resolved : JsonFields) (st : RequestParts),
      (∀ k, countEntry st.queryParams k ≤ 1) →
      ∀ k, countEntry (distributeParams ps resolved st).queryParams k ≤ 1 := by
  intro ps
  induction ps with
  | nil => intro resolved st h k; exact h k
  | cons q rest ih =>
    intro resolved st h k
    cases hl : jfLookup resolved q.name with
    | none =>
      rw [distributeParams_cons_none hl]
      exact ih resolved st h k
    | some v =>
      cases hloc : q.loc with
      | path =>
        rw [distributeParams_cons_path hl hloc]
        apply ih
        exact h
      | query =>
        rw [distributeParams_cons_query hl hloc]
        refine ih _ _ (fun k' => ?_) k
        by_cases hk : q.name = k'
        · rw [← hk, countEntry_setEntry_self st.queryParams q.name _ (h q.name)]
        · rw [countEntry_setEntry_ne st.queryParams q.name _ k' hk]
          exact h k'
      | header =>
        rw [distributeParams_cons_header hl hloc]
        apply ih
        exact h
      | body =>
        rw [distributeParams_cons_body hl hloc]
        apply ih
        exact h

theorem distrib_query_keep :
    ∀ (ps : List ManifestParameter) (resolved : JsonFields) (st : RequestParts) (k : String),
      (∀ k', countEntry st.queryParams k' ≤ 1) →
      countEntry st.queryParams k = 1 →
      countEntry (distributeParams ps resolved st).queryParams k = 1 := by
  intro ps
  induction ps with
  | nil => intro resolved st k _ h1; exact h1
  | cons q rest ih =>
    intro resolved st k h h1
    cases hl : jfLookup resolved q.name with
    | none =>
      rw [distributeParams_cons_none hl]
      exact ih resolved st k h h1
    | some v =>
      cases hloc : q.loc with
      | path =>
        rw [distributeParams_cons_path hl hloc]
        exact ih resolved (RequestParts.mk
          (replaceFirst st.url (pathPlaceholder q.name) (encodeURIComponent (jsToString v)))
          st.queryParams st.headers st.bodyParams) k h h1
      | query =>
        rw [distributeParams_cons_query hl hloc]
        refine ih _ _ k (fun k' => ?_) ?_
        · by_cases hk : q.name = k'
          · rw [← hk, countEntry_setEntry_self st.queryParams q.name _ (h q.name)]
          · rw [countEntry_setEntry_ne st.queryParams q.name _ k' hk]
            exact h k'
        · by_cases hk : q.name = k
          · rw [← hk, countEntry_setEntry_self st.queryParams q.name _ (h q.name)]
          · rw [countEntry_setEntry_ne st.queryParams q.name _ k hk]
            exact h1
      | header =>
        rw [distributeParams_cons_header hl hloc]
        exact ih resolved (RequestParts.mk st.url st.queryParams
          (setEntry st.headers q.name (jsToString v)) st.bodyParams) k h h1
      | body =>
        rw [distributeParams_cons_body hl hloc]
        exact ih resolved (RequestParts.mk st.url st.queryParams st.headers
          (jfSet st.bodyParams q.name v)) k h h1

theorem distrib_query_main :
    ∀ (ps : List ManifestParameter) (resolved : JsonFields) (st : RequestParts)
      (p : ManifestParameter) (v : Json),
      p ∈ ps → p.loc = ParamLoc.query → jfLookup resolved p.name = some v →
      (∀ k, countEntry st.queryParams k ≤ 1) →
      countEntry (distributeParams ps resolved st).queryParams p.name = 1 := by
  intro ps
  induction ps with
  | nil => intro resolved st p v hmem; exact absurd hmem (List.not_mem_nil p)
  | cons q rest ih =>
    intro resolved st p v hmem hloc hl h
    rcases List.mem_cons.mp hmem with heq | hmem'
    · subst heq
      rw [distributeParams_cons_query hl hloc]
      refine distrib_query_keep rest resolved _ p.name (fun k' => ?_) ?_
      · by_cases hk : p.name = k'
        · rw [← hk, countEntry_setEntry_self st.queryParams p.name _ (h p.name)]
        · rw [countEntry_setEntry_ne st.queryParams p.name _ k' hk]
          exact h k'
      · exact countEntry_setEntry_self st.queryParams p.name _ (h p.name)
    · cases hl' : jfLookup resolved q.name with
      | none =>
        rw [distributeParams_cons_none hl']
        exact ih resolved st p v hmem' hloc hl h
      | some w =>
        cases hloc' : q.loc with
        | path =>
          rw [distributeParams_cons_path hl' hloc']
          exact ih resolved (RequestParts.mk
            (replaceFirst st.url (pathPlaceholder q.name) (encodeURIComponent (jsToString w)))
            st.queryParams st.headers st.bodyParams) p v hmem' hloc hl h
        | query =>
          rw [distributeParams_cons_query hl' hloc']
          refine ih _ _ p v hmem' hloc hl (fun k' => ?_)
          by_cases hk : q.name = k'
          · rw [← hk, countEntry_setEntry_self st.queryParams q.name _ (h q.name)]
          · rw [countEntry_setEntry_ne st.queryParams q.name _ k' hk]
            exact h k'
        | header =>
          rw [distributeParams_cons_header hl' hloc']
          exact ih resolved (RequestParts.mk st.url st.queryParams
            (setEntry st.headers q.name (jsToString w)) st.bodyParams) p v hmem' hloc hl h
        | body =>
          rw [distributeParams_cons_body hl' hloc']
          exact ih resolved (RequestParts.mk st.url st.queryParams st.headers
            (jfSet st.bodyParams q.name w)) p v hmem' hloc hl h

theorem distrib_body_inv :
    ∀ (ps : List ManifestParameter) (resolved : JsonFields) (st : RequestParts),
      (∀ k, jfCount st.bodyParams k ≤ 1) →
      ∀ k, jfCount (distributeParams ps resolved st).bodyParams k ≤ 1 := by
  intro ps
  induction ps with
  | nil => intro resolved st h k; exact h k
  | cons q rest ih =>
    intro resolved st h k
    cases hl : jfLookup resolved q.name with
    | none =>
      rw [distributeParams_cons_none hl]
      exact ih resolved st h k
    | some v =>
      cases hloc : q.loc with
      | path =>
        rw [distributeParams_cons_path hl hloc]
        apply ih
        exact h
      | query =>
        rw [distributeParams_cons_query hl hloc]
        apply ih
        exact h
      | header =>
        rw [distributeParams_cons_header hl hloc]
        apply ih
        exact h
      | body =>
        rw [distributeParams_cons_body hl hloc]
        refine ih resolved (RequestParts.mk st.url st.queryParams st.headers
          (jfSet st.bodyParams q.name v)) (fun k' => ?_) k
        by_cases hk : q.name = k'
        · rw [← hk, jfCount_set_self st.bodyParams q.name _ (h q.name)]
        · rw [jfCount_set_ne st.bodyParams q.name _ k' hk]
          exact h k'

theorem distrib_body_keep :
    ∀ (ps : List ManifestParameter) (resolved : JsonFields) (st : RequestParts) (k : String),
      (∀ k', jfCount st.bodyParams k' ≤ 1) →
      jfCount st.bodyParams k = 1 →
      jfCount (distributeParams ps resolved st).bodyParams k = 1 := by
  intro ps
  induction ps with
  | nil => intro resolved st k _ h1; exact h1
  | cons q rest ih =>
    intro resolved st k h h1
    cases hl : jfLookup resolved q.name with
    | none =>
      rw [distributeParams_cons_none hl]
      exact ih resolved st k h h1
    | some v =>
      cases hloc : q.loc with
      | path =>
        rw [distributeParams_cons_path hl hloc]
        exact ih resolved (RequestParts.mk
          (replaceFirst st.url (pathPlaceholder q.name) (encodeURIComponent (jsToString v)))
          st.queryParams st.headers st.bodyParams) k h h1
      | query =>
        rw [distributeParams_cons_query hl hloc]
        exact ih resolved (RequestParts.mk st.url
          (setEntry st.queryParams q.name (jsToString v)) st.headers st.bodyParams) k h h1
      | header =>
        rw [distributeParams_cons_header hl hloc]
        exact ih resolved (RequestParts.mk st.url st.queryParams
          (setEntry st.headers q.name (jsToString v)) st.bodyParams) k h h1
      | body =>
        rw [distributeParams_cons_body hl hloc]
        refine ih resolved (RequestParts.mk st.url st.queryParams st.headers
          (jfSet st.bodyParams q.name v)) k (fun k' => ?_) ?_
        · by_cases hk : q.name = k'
          · rw [← hk, jfCount_set_self st.bodyParams q.name _ (h q.name)]
          · rw [jfCount_set_ne st.bodyParams q.name _ k' hk]
            exact h k'
        · by_cases hk : q.name = k
          · rw [← hk, jfCount_set_self st.bodyParams q.name _ (h q.name)]
          · rw [jfCount_set_ne st.bodyParams q.name _ k hk]
            exact h1

theorem distrib_body_main :
    ∀ (ps : List ManifestParameter) (resolved : JsonFields) (st : RequestParts)
      (p : ManifestParameter) (v : Json),
      p ∈ ps → p.loc = ParamLoc.body → jfLookup resolved p.name = some v →
      (∀ k, jfCount st.bodyParams k ≤ 1) →
      jfCount (distributeParams ps resolved st).bodyParams p.name = 1 := by
  intro ps
  induction ps with
  | nil => intro resolved st p v hmem; exact absurd hmem (List.not_mem_nil p)
  | cons q rest ih =>
    intro resolved st p v hmem hloc hl h
    rcases List.mem_cons.mp hmem with heq | hmem'
    · subst heq
      rw [distributeParams_cons_body hl hloc]
      refine distrib_body_keep rest resolved _ p.name (fun k' => ?_) ?_
      · by_cases hk : p.name = k'
        · rw [← hk, jfCount_set_self st.bodyParams p.name _ (h p.name)]
        · rw [jfCount_set_ne st.bodyParams p.name _ k' hk]
          exact h k'
      · exact jfCount_set_self st.bodyParams p.name _ (h p.name)
    · cases hl' : jfLookup resolved q.name with
      | none =>
        rw [distributeParams_cons_none hl']
        exact ih resolved st p v hmem' hloc hl h
      | some w =>
        cases hloc' : q.loc with
        | path =>
          rw [distributeParams_cons_path hl' hloc']
          exact ih resolved (RequestParts.mk
            (replaceFirst st.url (pathPlaceholder q.name) (encodeURIComponent (jsToString w)))
            st.queryParams st.headers st.bodyParams) p v hmem' hloc hl h
        | query =>
          rw [distributeParams_cons_query hl' hloc']
          exact ih resolved (RequestParts.mk st.url
            (setEntry st.queryParams q.name (jsToString w)) st.headers st.bodyParams)
            p v hmem' hloc hl h
        | header =>
          rw [distributeParams_cons_header hl' hloc']
          exact ih resolved (RequestParts.mk st.url st.queryParams
            (setEntry st.headers q.name (jsToString w)) st.bodyParams) p v hmem' hloc hl h
        | body =>
          rw [distributeParams_cons_body hl' hloc']
          refine ih resolved (RequestParts.mk st.url st.queryParams st.headers
            (jfSet st.bodyParams q.name w)) p v hmem' hloc hl (fun k' => ?_)
          by_cases hk : q.name = k'
          · rw [← hk, jfCount_set_self st.bodyParams q.name _ (h q.name)]
          · rw [jfCount_set_ne st.bodyParams q.name _ k' hk]
            exact h k'

theorem listStartsWith_self (l : List Char) : listStartsWith l l = true := by
  have h := listStartsWith_append_self l []
  rwa [List.append_nil] at h

theorem buildRequest_eq (m : Manifest) (a : ManifestAction) (cred : Option Credentials)
    (resolved : JsonFields) :
    buildRequest m a cred resolved =
      (let st := distributeParams a.parameters resolved (RequestParts.mk (m.base_url ++ a.path) []
          (injectAuth m cred [("Content-Type", "application/json"), ("Accept", "application/json")])
          JsonFields.nil)
       let qs := serializeQuery st.queryParams
       BuiltRequest.mk (if qs = "" then st.url else st.url ++ "?" ++ qs) st.headers
         st.queryParams st.bodyParams
         (if mutatingMethod a.method && !(jfIsEmpty st.bodyParams) then
            some (jsonStringify (Json.obj st.bodyParams)) else Option.none)) := rfl

theorem replaceFirst_placeholder (name repl : String) :
    replaceFirst ("https://api.example.com" ++ ("/items/" ++ pathPlaceholder name))
      (pathPlaceholder name) repl
    = "https://api.example.com/items/" ++ repl := by
  unfold replaceFirst
  have htl : ("https://api.example.com" ++ ("/items/" ++ pathPlaceholder name)).toList
      = ("https://api.example.com/items/").toList ++ (pathPlaceholder name).toList := by
    simp only [String.toList, String.data_append, ← List.append_assoc]
    have hcat : ("https://api.example.com".data ++ "/items/".data : List Char)
        = "https://api.example.com/items/".data := by decide
    rw [hcat]
  rw [htl, pathPlaceholder_toList,
    replaceFirstL_skip (name.toList ++ [rbraceChar]) repl.toList _
      (by decide : lbraceChar ∉ ("https://api.example.com/items/").toList),
    replaceFirstL_of_startsWith repl.toList
      (listStartsWith_self (lbraceChar :: (name.toList ++ [rbraceChar]))),
    List.drop_length, List.append_nil, asString_append, String.asString_toList,
    String.asString_toList]

/-- C1: parameter routing of the compiled action's request builder.
A present `path` parameter replaces the `\x7bname\x7d` placeholder in the
URL, URL-encoded (stated for the claim's single-path-parameter shape,
generalized over the parameter name and value); a present `query`
parameter occupies exactly one entry of the query record serialized into
the query string; a present `body` parameter occupies exactly one entry of
the body object; and a payload is attached only for POST/PUT/PATCH and only
when the body object is non-empty. -/
theorem c1_parameter_routing :
    (∀ (name : String) (v : Json),
      (buildRequest (Manifest.mk "ex" "https://api.example.com" Option.none)
        (ManifestAction.mk "get_item" "" HttpMethod.GET ("/items/" ++ pathPlaceholder name)
          [ManifestParameter.mk name ParamLoc.path true])
        Option.none (JsonFields.cons name v JsonFields.nil)).url
      = "https://api.example.com/items/" ++ encodeURIComponent (jsToString v))
    ∧ (∀ m a cred resolved p v, p ∈ a.parameters → p.loc = ParamLoc.query →
        jfLookup resolved p.name = some v →
        countEntry (buildRequest m a cred resolved).queryParams p.name = 1)
    ∧ (∀ m a cred resolved p v, p ∈ a.parameters → p.loc = ParamLoc.body →
        jfLookup resolved p.name = some v →
        jfCount (buildRequest m a cred resolved).bodyParams p.name = 1)
    ∧ (∀ m a cred resolved b, (buildRequest m a cred resolved).body = some b →
        mutatingMethod a.method = true
        ∧ (buildRequest m a cred resolved).bodyParams ≠ JsonFields.nil) := by
  refine ⟨?_, ?_, ?_, ?_⟩
  · intro name v
    have hl : jfLookup (JsonFields.cons name v JsonFields.nil) name = some v := by
      rw [jfLookup, if_pos rfl]
    rw [buildRequest_eq]
    dsimp only
    rw [distributeParams_cons_path hl rfl]
    dsimp only [distributeParams]
    rw [if_pos (show serializeQuery [] = "" from by decide)]
    exact replaceFirst_placeholder name (encodeURIComponent (jsToString v))
  · intro m a cred resolved p v hmem hloc hl
    rw [buildRequest_eq]
    dsimp only
    exact distrib_query_main a.parameters resolved _ p v hmem hloc hl
      (fun k => Nat.le_of_eq rfl |>.trans (by simp [countEntry]))
  · intro m a cred resolved p v hmem hloc hl
    rw [buildRequest_eq]
    dsimp only
    exact distrib_body_main a.parameters resolved _ p v hmem hloc hl
      (fun k => by simp [jfCount])
  · intro m a cred resolved b h
    rw [buildRequest_eq] at h
    dsimp only at h
    split at h
    · rename_i hcond
      rw [Bool.and_eq_true] at hcond
      refine ⟨hcond.1, ?_⟩
      rw [buildRequest_eq]
      dsimp only
      intro hnil
      rw [hnil] at hcond
      exact absurd hcond.2 (by decide)
    · exact absurd h (by simp)

/-- C1 witness: the spec's example — path `/items/\x7bid\x7d` with `id=42`
yields `/items/42` — and a concrete query parameter occupying exactly one
query entry. -/
theorem c1_parameter_routing_witness :
    (buildRequest (Manifest.mk "ex" "https://api.example.com" Option.none)
      (ManifestAction.mk "get_item" "" HttpMethod.GET ("/items/" ++ pathPlaceholder "id")
        [ManifestParameter.mk "id" ParamLoc.path true])
      Option.none (JsonFields.cons "id" (Json.num 42) JsonFields.nil)).url
      = "https://api.example.com/items/42"
    ∧ countEntry (buildRequest (Manifest.mk "sv" "https://sv.example" Option.none)
        (ManifestAction.mk "search" "" HttpMethod.GET "/search"
          [ManifestParameter.mk "q" ParamLoc.query true])
        Option.none (JsonFields.cons "q" (Json.str "hello") JsonFields.nil)).queryParams "q"
      = 1 := by
  constructor
  · rw [c1_parameter_routing.1 "id" (Json.num 42)]
    decide
  · exact c1_parameter_routing.2.1 (Manifest.mk "sv" "https://sv.example" Option.none)
      (ManifestAction.mk "search" "" HttpMethod.GET "/search"
        [ManifestParameter.mk "q" ParamLoc.query true])
      Option.none (JsonFields.cons "q" (Json.str "hello") JsonFields.nil)
      (ManifestParameter.mk "q" ParamLoc.query true) (Json.str "hello")
      (by decide) rfl (by decide)
